import Mathlib

/-!
Verification of the rule-binding and execution engine of the Dirlin repository
(`dirlin/validation.py`, `dirlin/src/base/util.py`,
`dirlin/pipeline/data_quality/base_validation.py`).

Python dictionaries are modelled as association lists in insertion order:
assignment to an existing key updates its value in place, assignment to a
fresh key appends, and the union operator keeps the left operand's order
while taking the right operand's values.  Dataframes are modelled
column-major, a check function by its parameter annotations together with
its scalar-call and series-call semantics, and every Python function that
can raise is modelled in the `Except String` monad.
-/

namespace Dirlin

/-- Lookup in a Python dict modelled as an association list (first match). -/
def dlookup (m : List (String × α)) (k : String) : Option α :=
  match m with
  | [] => none
  | (k', v) :: rest => if k' = k then some v else dlookup rest k

/-- Python dict assignment `m[k] = v`: update the value in place when the key
exists, append the pair otherwise. -/
def dinsert (m : List (String × α)) (k : String) (v : α) : List (String × α) :=
  match m with
  | [] => [(k, v)]
  | (k', v') :: rest => if k' = k then (k', v) :: rest else (k', v') :: dinsert rest k v

/-- Python dict union `a | b`: fold the entries of `b` into `a` by assignment. -/
def dmerge (a b : List (String × α)) : List (String × α) :=
  b.foldl (fun acc kv => dinsert acc kv.1 kv.2) a

/-- Keys of a dict. -/
def dkeys (m : List (String × α)) : List String :=
  m.map Prod.fst

/-- Membership test `k in m` for a Python dict. -/
def dmem (m : List (String × α)) (k : String) : Bool :=
  (dlookup m k).isSome

/-- Sequencing of a fallible function over a list, propagating the first
error: the semantics of both a Python comprehension over calls that may
raise and `List.mapM` in the `Except` monad. -/
def exceptMap (g : α → Except String β) : List α → Except String (List β)
  | [] => .ok []
  | x :: xs => do
    let y ← g x
    let ys ← exceptMap g xs
    .ok (y :: ys)

/-- Value of an `alias_mapping` entry: the source declares
`alias_mapping: dict[str, list | str]`, so an entry is either a single
column name or a list of column names. -/
inductive AliasVal where
  | s (name : String)
  | l (names : List String)
  deriving DecidableEq, Repr

/-- An `alias_mapping` class attribute: a Python dict from parameter name to
alias value. -/
abbrev AliasMap := List (String × AliasVal)

/-- One step of `BaseValidation._get_all_alias_mapping_in_class`
(validation.py lines 728-746): the first layer that defines `alias_mapping`
initialises the accumulator; afterwards only keys that are not yet present
are added (`overide_param`), in the layer's own order. -/
def getAllAliasMappingStep (acc : Option AliasMap) (temp : AliasMap) : Option AliasMap :=
  match acc with
  | none => some temp
  | some m => some (m ++ temp.filter fun kv => (dlookup m kv.1).isNone)

/-- The loop of `BaseValidation._get_all_alias_mapping_in_class` over
`cls.__mro__[:-1]`, restricted to the classes whose `__dict__` defines
`alias_mapping`, most-derived first. -/
def getAllAliasMappingLoop (chain : List AliasMap) : Option AliasMap :=
  chain.foldl getAllAliasMappingStep none

/-- One user check function, by the data `BaseValidation` reads off it by
reflection, together with its call semantics for the two invocation modes. -/
structure RuleFn where
  /-- Annotated parameters of the check function in declaration order,
  excluding `return` (`inspect.get_annotations`). -/
  params : List (String × Bool)
  /-- Whether the function declares a return annotation
  (`_get_function_return_type`). -/
  hasRet : Bool
  /-- Description extracted from the docstring
  (`_get_all_function_docstrings`). -/
  doc : String
  /-- Invocation with whole columns as keyword arguments
  (series-typed check). -/
  runSeries : List (String × List Int) → List Bool
  /-- Invocation with one row's scalars as keyword arguments
  (scalar-typed check). -/
  runScalar : List (String × Int) → Bool

/-- In `RuleFn.params` the `Bool` is `true` for a `pd.Series` annotation and
`false` for a scalar annotation. -/
abbrev seriesAnnot : Bool := true

/-- State of a validation class for one run.  `ownAlias` is
`cls.__dict__["alias_mapping"]` when the class itself defines one;
`parentAliases` are the `alias_mapping` dicts of the proper ancestors that
define one, in MRO order (most-derived first).  `BaseValidation` itself
always closes the MRO (before `object`) with its class-level default
`alias_mapping = dict()`, which `aliasChain` appends explicitly. -/
structure VClass where
  ownAlias : Option AliasMap
  parentAliases : List AliasMap
  /-- Result of `_get_all_functions_in_class`: check name to check function,
  in iteration order. -/
  checks : List (String × RuleFn)

/-- The `alias_mapping` dicts found along the MRO, most-derived first; the
final `[]` is `BaseValidation`'s own `alias_mapping = dict()` default
(validation.py line 225), which is always last before `object`. -/
def aliasChain (c : VClass) : List AliasMap :=
  c.ownAlias.toList ++ c.parentAliases ++ [[]]

/-- `BaseValidation._get_all_alias_mapping_in_class` for class `c`.  The
chain always ends with `BaseValidation`'s empty dict, so the fold always
returns a map; `getD` only discharges the impossible `none` case. -/
def getAllAliasMappingInClass (c : VClass) : AliasMap :=
  (getAllAliasMappingLoop (aliasChain c)).getD []

/-- STEP 0 of `BaseValidation._run_validation` (validation.py line 257):
`cls.alias_mapping = cls._get_all_alias_mapping_in_class()` writes the
flattened map into the most-derived class's `__dict__`. -/
def step0 (c : VClass) : VClass :=
  { c with ownAlias := some (getAllAliasMappingInClass c) }

/-- Attribute lookup `cls.alias_mapping`: the first `alias_mapping` found
along the MRO. -/
def aliasAttr (c : VClass) : AliasMap :=
  (aliasChain c).headD []

/-- Tabular dataset: `nrows` is the row count, `cols` the named columns in
order.  Cell values are modelled as integers. -/
structure DFrame where
  nrows : Nat
  cols : List (String × List Int)

/-- Well-formed dataframe: every column has exactly `nrows` entries. -/
def DFrame.WF (df : DFrame) : Prop :=
  ∀ kv ∈ df.cols, kv.2.length = df.nrows

/-- Column membership test, `column in df.columns`. -/
def hasCol (df : DFrame) (c : String) : Bool :=
  dmem df.cols c

/-- Column access `df[c]`, raising `KeyError` on a missing column. -/
def getCol (df : DFrame) (c : String) : Except String (List Int) :=
  match dlookup df.cols c with
  | some v => .ok v
  | none => .error ("KeyError: " ++ c)

/-- Row `i` of the dataframe as a record over the original columns. -/
def rowCells (df : DFrame) (i : Nat) : List (String × Int) :=
  df.cols.map fun kv => (kv.1, kv.2.getD i 0)

/-- Python `s.strip("-")`: remove leading and trailing dashes. -/
def pyStripDash (s : String) : String :=
  String.mk (((s.data.dropWhile (· = '-')).reverse.dropWhile (· = '-')).reverse)

/-- `DirlinFormatter.convert_string_to_python_readable` (util.py lines
11-21): strip dashes, lowercase, replace spaces with underscores. -/
def convertStringToPythonReadable (name : String) : String :=
  String.mk (((pyStripDash name).data.map Char.toLower).map
    fun c => if c = ' ' then '_' else c)

/-- An argument set, the Python dict of parameter name to column name. -/
abbrev ArgSet := List (String × String)

/-- `DirlinFormatter.convert_dict_to_ref_names` (util.py lines 94-124):
join the cleaned column names (dict values) with underscores; the keys are
used only when `use_keys` is the literal `True`.  Both call sites in
validation.py behave as `use_keys = False`: the scalar path passes nothing
and the series path passes the string `"series"`, which fails the
`use_keys is True` identity test.  Neither call site passes `prefix`. -/
def convertDictToRefNames (argPair : ArgSet) (useKeys : Bool) : String :=
  let columns := if useKeys then argPair.map Prod.fst else argPair.map Prod.snd
  String.intercalate "_" (columns.map convertStringToPythonReadable)

/-- Length of the shortest value list of a one-to-many dict (the number of
tuples produced by Python's `zip(*m.values())`). -/
def minValLen (m : List (String × List String)) : Nat :=
  match m.map (fun kv => kv.2.length) with
  | [] => 0
  | x :: xs => xs.foldl min x

/-- `DirlinFormatter.convert_dict_to_records` (util.py lines 76-92):
`zip(*m.values())` pairs the value lists positionally and stops at the
shortest list; an empty zip result is replaced by `[dict()]`. -/
def convertDictToRecords (oneToMany : List (String × List String)) :
    List (List (String × String)) :=
  let flattened :=
    if oneToMany.isEmpty then []
    else (List.range (minValLen oneToMany)).map
      fun i => oneToMany.map fun kv => (kv.1, kv.2.getD i "")
  if flattened.isEmpty then [[]] else flattened

/-- Check name to annotated parameters,
`BaseValidation._get_function_param_and_type` (validation.py lines
614-626). -/
def getFunctionParamAndType (c : VClass) : List (String × List (String × Bool)) :=
  c.checks.map fun nf => (nf.1, nf.2.params)

/-- `BaseValidation._map_param_to_alias` (validation.py lines 693-716):
flatten the parameters of all checks into one dict, initialising each new
parameter to `None` and attaching its `cls.alias_mapping` entry when one
exists. -/
def mapParamToAlias (c : VClass) : List (String × Option AliasVal) :=
  (getFunctionParamAndType c).foldl
    (fun acc ck => ck.2.foldl
      (fun acc2 p => if dmem acc2 p.1 then acc2 else acc2 ++ [(p.1, dlookup (aliasAttr c) p.1)])
      acc) []

/-- Binding value for one parameter: the source stores either a bare string
(a string alias copied through unchanged) or a list of column names. -/
inductive BindVal where
  | s (col : String)
  | l (cols : List String)
  deriving DecidableEq, Repr

/-- The per-parameter content of `BaseValidation._map_param_to_columns`:
an exact column match binds to `[param]`; otherwise a missing alias raises
the `KeyError`, a string alias is copied through unfiltered, and a list
alias is filtered to the columns present in the dataframe. -/
def bindOne (df : DFrame) (pa : String × Option AliasVal) : Except String (String × BindVal) :=
  if hasCol df pa.1 then .ok (pa.1, .l [pa.1])
  else
    match pa.2 with
    | none => .error ("KeyError: " ++ pa.1)
    | some (.s a) => .ok (pa.1, .s a)
    | some (.l names) => .ok (pa.1, .l (names.filter fun n => hasCol df n))

/-- The loop of `BaseValidation._map_param_to_columns` (validation.py lines
544-580), building `param_column_mapping` entry by entry.  The `some`
branches of the exact-match case mirror the source's `elif` arms, which are
unreachable because `_map_param_to_alias` yields each parameter once. -/
def mapParamToColumnsAux (df : DFrame) :
    List (String × Option AliasVal) → List (String × BindVal) →
    Except String (List (String × BindVal))
  | [], acc => .ok acc
  | (param, aliasNames) :: rest, acc =>
    if hasCol df param then
      match dlookup acc param with
      | none => mapParamToColumnsAux df rest (dinsert acc param (.l [param]))
      | some (.l xs) => mapParamToColumnsAux df rest (dinsert acc param (.l (xs ++ [param])))
      | some (.s s) => mapParamToColumnsAux df rest (dinsert acc param (.l [s, param]))
    else
      match aliasNames with
      | none => .error ("KeyError: " ++ param)
      | some (.s a) => mapParamToColumnsAux df rest (dinsert acc param (.s a))
      | some (.l names) =>
          mapParamToColumnsAux df rest (dinsert acc param (.l (names.filter fun n => hasCol df n)))

/-- `BaseValidation._map_param_to_columns`: the parameter-to-columns map
built from `_map_param_to_alias` and the dataframe's columns. -/
def mapParamToColumns (c : VClass) (df : DFrame) : Except String (List (String × BindVal)) :=
  mapParamToColumnsAux df (mapParamToAlias c) []

/-- STEP 1 of `BaseValidation._map_function_to_args` (validation.py lines
514-527): split the bound parameters of one check into the one-to-one dict
(a string value, or a list of length one) and the one-to-many dict (a list
of length greater than one); empty lists are skipped. -/
def partitionStep (paramSet : List String)
    (acc : List (String × String) × List (String × List String)) (pf : String × BindVal) :
    List (String × String) × List (String × List String) :=
  if paramSet.contains pf.1 then
    match pf.2 with
    | .s fieldName => (dinsert acc.1 pf.1 fieldName, acc.2)
    | .l fields =>
      if fields.length = 1 then (dinsert acc.1 pf.1 (fields.headD ""), acc.2)
      else if 1 < fields.length then (acc.1, dinsert acc.2 pf.1 fields)
      else acc
  else acc

/-- Partition of the bound parameters of one check, folding `partitionStep`
over the `_map_param_to_columns` result in its own order. -/
def partitionParams (pm : List (String × BindVal)) (paramSet : List String) :
    List (String × String) × List (String × List String) :=
  pm.foldl (partitionStep paramSet) ([], [])

/-- STEP 2 of `BaseValidation._map_function_to_args` (validation.py lines
537-541): flatten the one-to-many dict into records and merge each record
over the one-to-one dict (`one_to_one | one_to_many_args`). -/
def argSetsFromPartition (oneToOne : List (String × String))
    (oneToMany : List (String × List String)) : List ArgSet :=
  (convertDictToRecords oneToMany).map fun record => dmerge oneToOne record

/-- The argument sets of one check: partition its bound parameters, then
expand. -/
def bindingArgSets (pm : List (String × BindVal)) (paramSet : List String) : List ArgSet :=
  let p := partitionParams pm paramSet
  argSetsFromPartition p.1 p.2

/-- `BaseValidation._map_function_to_args` (validation.py lines 500-542). -/
def mapFunctionToArgs (c : VClass) (df : DFrame) :
    Except String (List (String × List ArgSet)) := do
  let pm ← mapParamToColumns c df
  .ok ((getFunctionParamAndType c).map
    fun ck => (ck.1, bindingArgSets pm (ck.2.map Prod.fst)))

/-- The per-check body of `BaseValidation._map_function_to_function_type`
(validation.py lines 582-612): a mix of series and scalar annotations
raises; otherwise the check is series-typed exactly when no scalar
annotation appears. -/
def functionTypeFor (params : List (String × Bool)) : Except String Bool :=
  let hasSeries := params.any fun p => p.2
  let hasScalar := params.any fun p => !p.2
  if hasSeries && hasScalar then
    .error "ValueError: The function cannot have both a scalar parameter and a series parameter."
  else if hasScalar then .ok false
  else .ok true

/-- `BaseValidation._map_function_to_function_type`. -/
def mapFunctionToFunctionType (c : VClass) : Except String (List (String × Bool)) :=
  exceptMap (fun ck => (functionTypeFor ck.2).map fun b => (ck.1, b)) (getFunctionParamAndType c)

/-- Number of fields an alias value contributes when iterated in
`_verify_alias_mapping`: a string is iterated character by character. -/
def aliasValLen (v : AliasVal) : Nat :=
  match v with
  | .s fieldName => fieldName.length
  | .l names => names.length

/-- `_BaseValidationVerifier._verify_alias_mapping` (validation.py lines
117-142).  The source's `columns[arg] = True` is a dict assignment, which
never raises `KeyError`, so `param_results` contains only `True` entries
and a parameter is flagged exactly when its alias value is empty (making
`any` of the empty list `False`). -/
def verifyAliasMapping (aliasMapping : AliasMap) : Except String Bool :=
  let invalid := (aliasMapping.filter fun kv => aliasValLen kv.2 = 0).map Prod.fst
  if invalid.isEmpty then .ok true
  else .error "KeyError: alias fields were not in the dataframe"

/-- `_BaseValidationVerifier._verify_column_ties_to_parameter`
(validation.py lines 144-168): a parameter is missing when it is not a
dataframe column and has no alias entry. -/
def verifyColumnTiesToParameter (df : DFrame)
    (paramsInClass : List (String × Option AliasVal)) : Except String Bool :=
  let missing := (paramsInClass.filter fun kv => !hasCol df kv.1 && kv.2.isNone).map Prod.fst
  if missing.isEmpty then .ok true
  else .error "KeyError: missing columns"

/-- `_BaseValidationVerifier._verify_function_params_match` (validation.py
lines 90-115).  Its `isinstance(p_type, pd.Series)` and
`isinstance(p_type, pd.DataFrame)` tests receive annotation objects, which
are classes, never instances, so both tests are always `False`, no flag is
ever set and the method always returns `True`. -/
def verifyFunctionParamsMatch (_c : VClass) : Except String Bool :=
  .ok true

/-- `_BaseValidationVerifier._verify_function_param_return_match`
(validation.py lines 64-88): a check without a return annotation raises
`ValueError`.  In the following loop, iterating the parameter dict yields
its keys (strings), so `all(isinstance(arg, pd.Series) ...)` holds exactly
when a check has no annotated parameters; the return annotation is a class
and never a `pd.Series` instance, so that case raises the `TypeError`. -/
def verifyFunctionParamReturnMatch (c : VClass) : Except String Bool :=
  let missingRet := (c.checks.filter fun nf => !nf.2.hasRet).map Prod.fst
  if !missingRet.isEmpty then .error "ValueError: functions are missing a return type."
  else if c.checks.any (fun nf => nf.2.params.isEmpty) then
    .error "TypeError: The return type of a function must match the parameter types"
  else .ok true

/-- Wrapper of one validation outcome (`_ResultWrapper`, validation.py
lines 15-37). -/
structure ResultWrapper where
  result : List Bool
  parametersUsed : String
  functionName : String
  functionDescription : String
  deriving DecidableEq, Repr

/-- Keyword arguments for a series invocation: each bound column of the
argument set, fetched from the dataframe (`{param: df[column] ...}`). -/
def seriesArgs (df : DFrame) (argsPair : ArgSet) :
    Except String (List (String × List Int)) :=
  exceptMap (fun pc => (getCol df pc.2).map fun v => (pc.1, v)) argsPair

/-- The `new_keys` dict comprehension of
`BaseValidation._process_function_as_series_function` (validation.py lines
429-433), keyed by reference name; a duplicate reference name overwrites
the earlier argument set. -/
def buildNewKeys (df : DFrame) (argsList : List ArgSet)
    (acc : List (String × List (String × List Int))) :
    Except String (List (String × List (String × List Int))) :=
  match argsList with
  | [] => .ok acc
  | ap :: rest => do
    let args ← seriesArgs df ap
    buildNewKeys df rest (dinsert acc (convertDictToRefNames ap false) args)

/-- `BaseValidation._process_function_as_series_function` (validation.py
lines 409-450): one wrapper per `new_keys` entry, invoking the check once
with whole columns. -/
def processFunctionAsSeriesFunction (f : RuleFn) (functionName : String) (df : DFrame)
    (argsList : List ArgSet) (docs : String) : Except String (List ResultWrapper) := do
  let newKeys ← buildNewKeys df argsList []
  .ok (newKeys.map fun kv => ⟨f.runSeries kv.2, kv.1, functionName, docs⟩)

/-- The `column_rename_map` of the scalar path, `{column: param}`; a
duplicate column keeps only the later parameter. -/
def buildRenameMap (argsPair : ArgSet) : List (String × String) :=
  argsPair.foldl (fun acc pc => dinsert acc pc.2 pc.1) []

/-- The records of `temp.to_dict(orient="records")`: one dict per dataframe
row, keyed by parameter name. -/
def scalarRecords (df : DFrame) (colData : List (String × List Int)) :
    List (List (String × Int)) :=
  (List.range df.nrows).map fun i => colData.map fun pv => (pv.1, pv.2.getD i 0)

/-- Selection and renaming of the columns of one argument set in the
scalar path: `df[list(column_rename_map)]` fetched column by column,
renamed to the parameter names. -/
def scalarColData (df : DFrame) (argsPair : ArgSet) :
    Except String (List (String × List Int)) :=
  exceptMap (fun cp => (getCol df cp.1).map fun v => (cp.2, v)) (buildRenameMap argsPair)

/-- One iteration of the scalar loop (validation.py lines 476-497): build
the renamed records of the dataframe, invoke the check once per record,
and wrap the collected booleans under the joined reference name. -/
def processScalarSet (f : RuleFn) (functionName : String) (df : DFrame) (docs : String)
    (argsPair : ArgSet) : Except String ResultWrapper := do
  let colData ← scalarColData df argsPair
  .ok ⟨(scalarRecords df colData).map f.runScalar,
    convertDictToRefNames argsPair false, functionName, docs⟩

/-- `BaseValidation._process_function_as_scalar_function` (validation.py
lines 452-498): one wrapper per argument set. -/
def processFunctionAsScalarFunction (f : RuleFn) (functionName : String) (df : DFrame)
    (argsList : List ArgSet) (docs : String) : Except String (List ResultWrapper) :=
  exceptMap (processScalarSet f functionName df docs) argsList

/-- Python dict subscript `m[k]` raising `KeyError` when absent. -/
def lookupE (m : List (String × α)) (k : String) : Except String α :=
  match dlookup m k with
  | some v => .ok v
  | none => .error ("KeyError: " ++ k)

/-- The `match` dispatch inside `BaseValidation._process_function_with_args`
(validation.py lines 386-402): `True` runs the series path, anything else
the scalar path. -/
def processOneFunction (df : DFrame) (functionName : String) (f : RuleFn) (isSeries : Bool)
    (argsList : List ArgSet) (docs : String) : Except String (List ResultWrapper) :=
  match isSeries with
  | true => processFunctionAsSeriesFunction f functionName df argsList docs
  | false => processFunctionAsScalarFunction f functionName df argsList docs

/-- The `temp = {r.parameters_used: r for r in result}` dict comprehension
of `_process_function_with_args`. -/
def wrappersByParametersUsed (result : List ResultWrapper) : List (String × ResultWrapper) :=
  result.foldl (fun a r => dinsert a r.parametersUsed r) []

/-- The loop of `BaseValidation._process_function_with_args` (validation.py
lines 380-406): run every check, key its wrappers by `parameters_used` and
merge with `results = results | temp`. -/
def processFunctionWithArgsAux (df : DFrame) (functionTypeMap : List (String × Bool))
    (functionArgs : List (String × List ArgSet)) (functionDocs : List (String × String)) :
    List (String × RuleFn) → List (String × ResultWrapper) →
    Except String (List (String × ResultWrapper))
  | [], results => .ok results
  | nf :: rest, results => do
    let argsList ← lookupE functionArgs nf.1
    let ftype ← lookupE functionTypeMap nf.1
    let docs ← lookupE functionDocs nf.1
    let result ← processOneFunction df nf.1 nf.2 ftype argsList docs
    processFunctionWithArgsAux df functionTypeMap functionArgs functionDocs rest
      (dmerge results (wrappersByParametersUsed result))

/-- `BaseValidation._process_function_with_args` (validation.py lines
356-407). -/
def processFunctionWithArgs (df : DFrame) (functionMap : List (String × RuleFn))
    (functionTypeMap : List (String × Bool)) (functionArgs : List (String × List ArgSet))
    (functionDocs : List (String × String)) :
    Except String (List (String × ResultWrapper)) :=
  processFunctionWithArgsAux df functionTypeMap functionArgs functionDocs functionMap []

/-- Check name to docstring description,
`BaseValidation._get_all_function_docstrings`. -/
def docsMap (c : VClass) : List (String × String) :=
  c.checks.map fun nf => (nf.1, nf.2.doc)

/-- `BaseValidation._run_validation` (validation.py lines 246-298): STEP 0
flattens and stores the alias mapping, STEP 1 runs the verifier's
`check_all` in its order, STEP 2 builds the maps, STEP 3 runs the checks. -/
def runValidation (c₀ : VClass) (df : DFrame) :
    Except String (List (String × ResultWrapper)) := do
  let c := step0 c₀
  let _ ← verifyAliasMapping (aliasAttr c)
  let _ ← verifyColumnTiesToParameter df (mapParamToAlias c)
  let _ ← verifyFunctionParamsMatch c
  let _ ← verifyFunctionParamReturnMatch c
  let functionArgs ← mapFunctionToArgs c df
  let functionTypeMap ← mapFunctionToFunctionType c
  processFunctionWithArgs df c.checks functionTypeMap functionArgs (docsMap c)

/-- One row of the summary deliverable (`BaseValidation.run_summary`,
validation.py lines 300-337).  `totalValidated` is `result.count()`, the
non-null count, which is the series length in this model. -/
structure SummaryRow where
  group : Option String
  checkName : String
  functionName : String
  description : String
  totalValidated : Nat
  totalPassed : Nat
  totalFailed : Nat
  deriving DecidableEq, Repr

/-- Number of `True` entries of a boolean series (`result.sum()`). -/
def countTrue (l : List Bool) : Nat :=
  l.countP fun b => b

/-- The summary dict entry built for one wrapper in `run_summary`. -/
def mkSummaryRow (groupName : Option String) (checkName : String) (r : ResultWrapper) :
    SummaryRow :=
  ⟨groupName, checkName, r.functionName, r.functionDescription,
    r.result.length, countTrue r.result, r.result.length - countTrue r.result⟩

/-- Insertion into a descending run of `sort_values("Total Records Failed",
ascending=False)`. -/
def insertByFailedDesc (x : SummaryRow) : List SummaryRow → List SummaryRow
  | [] => [x]
  | y :: ys =>
    if y.totalFailed ≤ x.totalFailed then x :: y :: ys else y :: insertByFailedDesc x ys

/-- Sort of the summary rows by `Total Records Failed`, descending. -/
def sortByFailedDesc : List SummaryRow → List SummaryRow
  | [] => []
  | x :: xs => insertByFailedDesc x (sortByFailedDesc xs)

/-- `BaseValidation.run_summary` (validation.py lines 300-337): run the
validation, build one row per wrapper and sort descending by failures.
When the run yields no wrappers, the transposed frame has no columns and
`sort_values("Total Records Failed")` raises `KeyError`. -/
def runSummary (c₀ : VClass) (df : DFrame) (groupName : Option String) :
    Except String (List SummaryRow) := do
  let results ← runValidation c₀ df
  if results.isEmpty then .error "KeyError: Total Records Failed"
  else .ok (sortByFailedDesc (results.map fun kr => mkSummaryRow groupName kr.1 kr.2))

/-- One row of the error log: the original row's cells plus the `Check`
tag column and the optional `Group` tag column. -/
structure ErrRow where
  cells : List (String × Int)
  check : String
  group : Option String
  deriving DecidableEq, Repr

/-- Indices at which a boolean series is `False` (`df[~r.result]` keeps the
rows whose mask entry is false, in order). -/
def selectIdxFalse : List Bool → Nat → List Nat
  | [], _ => []
  | b :: rest, i => if b then selectIdxFalse rest (i + 1) else i :: selectIdxFalse rest (i + 1)

/-- The rows one wrapper contributes to the error log: the dataset rows at
the false positions of its result, tagged with the rule name and the
optional group label. -/
def selectFailedRows (df : DFrame) (groupName : Option String) (r : ResultWrapper) :
    List ErrRow :=
  (selectIdxFalse r.result 0).map fun i => ⟨rowCells df i, r.functionName, groupName⟩

/-- `BaseValidation.run_error_log` (validation.py lines 339-354): run the
validation, filter per wrapper, tag and concatenate.  With no wrappers the
list passed to `pd.concat` is empty, which raises `ValueError`. -/
def runErrorLog (c₀ : VClass) (df : DFrame) (groupName : Option String) :
    Except String (List ErrRow) := do
  let results ← runValidation c₀ df
  let resultsFilter := results.map fun kr => selectFailedRows df groupName kr.2
  if resultsFilter.isEmpty then .error "ValueError: No objects to concatenate"
  else .ok resultsFilter.flatten

/-- Runtime state of the older `Validation` iteration
(pipeline/data_quality/base_validation.py): the cached results and the
`flag_run_processed` marker set by `run`. -/
structure ValidationState where
  results : List (String × List Bool)
  flagRunProcessed : Bool

/-- `Validation._confirm_run_was_ran` (base_validation.py lines 159-164):
raise `RuntimeError` unless `run` has executed at least once. -/
def confirmRunWasRan (s : ValidationState) : Except String Unit :=
  if s.flagRunProcessed = false then
    .error "RuntimeError: Expected Validation.run() method to be run once."
  else .ok ()

/-- `Validation.generate_error_log` (base_validation.py lines 126-153):
gated by `_confirm_run_was_ran`, then one (check, total_checked, errors)
row per cached result. -/
def generateErrorLog (s : ValidationState) :
    Except String (List (String × Nat × Nat)) := do
  let _ ← confirmRunWasRan s
  .ok (s.results.map fun kr => (kr.1, kr.2.length, kr.2.length - countTrue kr.2))

/-! The partition of `_map_function_to_args` in closed form. -/

/-- Whether one bound parameter lands in the one-to-one dict, and with
which field. -/
def staticSel (paramSet : List String) (pf : String × BindVal) : Option (String × String) :=
  if paramSet.contains pf.1 then
    match pf.2 with
    | .s fieldName => some (pf.1, fieldName)
    | .l fields => if fields.length = 1 then some (pf.1, fields.headD "") else none
  else none

/-- Whether one bound parameter lands in the one-to-many dict. -/
def sharedSel (paramSet : List String) (pf : String × BindVal) :
    Option (String × List String) :=
  if paramSet.contains pf.1 then
    match pf.2 with
    | .s _ => none
    | .l fields => if 1 < fields.length then some (pf.1, fields) else none
  else none

/-- The one-to-one entries `partitionParams` extracts, as a filter over the
bound parameters. -/
def staticOf (paramSet : List String) (pm : List (String × BindVal)) :
    List (String × String) :=
  pm.filterMap (staticSel paramSet)

/-- The one-to-many entries `partitionParams` extracts. -/
def sharedOf (paramSet : List String) (pm : List (String × BindVal)) :
    List (String × List String) :=
  pm.filterMap (sharedSel paramSet)

/-! Concrete rule sets and datasets used to instantiate the theorems. -/

/-- A scalar check `first_function(x: int) -> bool` testing positivity. -/
def exRule : RuleFn :=
  { params := [("x", false)], hasRet := true, doc := "checks x positive.",
    runSeries := fun _ => [], runScalar := fun args => (dlookup args "x").getD 0 > 0 }

/-- A validation class declaring only `first_function` and no alias
mapping of its own. -/
def exClass : VClass := ⟨none, [], [("first_function", exRule)]⟩

/-- A three-row dataset with columns `x` and `y`. -/
def exDF : DFrame := ⟨3, [("x", [1, -2, 3]), ("y", [4, 5, 6])]⟩

/-- A series check `f(p: pd.Series, q: pd.Series) -> pd.Series`. -/
def exRule2 : RuleFn :=
  { params := [("p", true), ("q", true)], hasRet := true, doc := "doc.",
    runSeries := fun _ => [true], runScalar := fun _ => true }

/-- A class whose alias mapping resolves `p` to two columns and `q` to
three columns: the two shared groups are misaligned. -/
def exClass2 : VClass :=
  ⟨some [("p", .l ["a1", "a2"]), ("q", .l ["b1", "b2", "b3"])], [], [("f", exRule2)]⟩

/-- A one-row dataset carrying all five aliased columns. -/
def exDF2 : DFrame :=
  ⟨1, [("a1", [1]), ("a2", [2]), ("b1", [3]), ("b2", [4]), ("b3", [5])]⟩

/-- A validation class declaring no checks at all. -/
def exClassEmpty : VClass := ⟨none, [], []⟩

/-- A scalar check `f(price: float) -> bool`. -/
def exRule3 : RuleFn :=
  ⟨[("price", false)], true, "doc.", fun _ => [], fun _ => true⟩

/-- A class whose parameter `price` has a single-string alias naming a
column that is absent from `exDFId`. -/
def exClass3 : VClass := ⟨some [("price", .s "Total Price")], [], [("f", exRule3)]⟩

/-- A one-row dataset with only an `id` column. -/
def exDFId : DFrame := ⟨1, [("id", [1])]⟩

/-- A derived class's `alias_mapping`, overriding `a` and adding `b`. -/
def c1Derived : AliasMap := [("a", .l ["Y"]), ("b", .l ["Z"])]

/-- A base class's `alias_mapping`, defining `a` only. -/
def c1Base : AliasMap := [("a", .l ["X"])]

/-- A base class's `alias_mapping` defining `a` and a key `c` that the
derived class does not define. -/
def c1Base2 : AliasMap := [("a", .l ["X"]), ("c", .l ["W"])]

/-- The derived-over-base layering of `c1Derived` and `c1Base`. -/
def c1Class : VClass := ⟨some c1Derived, [c1Base], []⟩

/-- A scalar rule with three parameters, used to exercise all three
binding outcomes at once. -/
def c3Rule : RuleFn :=
  ⟨[("x", false), ("price", false), ("q", false)], true, "doc.",
    fun _ => [], fun _ => true⟩

/-- A class aliasing `price` to a two-column list and `q` to a single
string, while `x` matches a dataset column directly. -/
def c3Class : VClass :=
  ⟨some [("price", .l ["P1", "P2"]), ("q", .s "QQ")], [], [("fw", c3Rule)]⟩

/-- A two-row dataset with columns `x`, `P1`, `P2` and `QQ`. -/
def c3DF : DFrame :=
  ⟨2, [("x", [1, 2]), ("P1", [3, 4]), ("P2", [5, 6]), ("QQ", [7, 8])]⟩

/-- A series check over one shared parameter, flagging positive entries. -/
def exRuleA : RuleFn :=
  ⟨[("p", true)], true, "docA.", fun args => ((dlookup args "p").getD []).map (fun v => v > 0),
    fun _ => true⟩

/-- A second, distinct series check over the same parameter. -/
def exRuleB : RuleFn :=
  ⟨[("p", true)], true, "docB.", fun args => ((dlookup args "p").getD []).map (fun v => v < 0),
    fun _ => true⟩

/-- Bound parameters of a rule with two shared groups of two columns each,
following the `<prefix>_<base>` convention. -/
def c4PM : List (String × BindVal) :=
  [("gross", .l ["tsm_g", "vt_g"]), ("exp", .l ["tsm_e", "vt_e"])]

/-- A two-row dataset carrying both entities' columns. -/
def c4DF : DFrame :=
  ⟨2, [("tsm_g", [10, 20]), ("vt_g", [1, 2]), ("tsm_e", [5, 5]), ("vt_e", [1, 1])]⟩

/-- A series check over the two shared parameters. -/
def c4Rule : RuleFn :=
  ⟨[("gross", true), ("exp", true)], true, "d.", fun _ => [true, true], fun _ => true⟩

/-! Auxiliary lemmas about the dictionary model. -/

theorem dlookup_append (a b : List (String × α)) (k : String) :
    dlookup (a ++ b) k = ((dlookup a k).orElse fun _ => dlookup b k) := by
  induction a with
  | nil => simp [dlookup, Option.orElse]
  | cons hd tl ih =>
    by_cases h : hd.1 = k <;> simp [dlookup, h, ih, Option.orElse]

theorem not_mem_keys_cons {hd : String × α} {tl : List (String × α)} {k : String}
    (h : k ∉ dkeys (hd :: tl)) : hd.1 ≠ k ∧ k ∉ dkeys tl := by
  rw [show dkeys (hd :: tl) = hd.1 :: dkeys tl from rfl] at h
  exact ⟨fun he => h (he ▸ List.mem_cons_self _ _), fun hm => h (List.mem_cons_of_mem _ hm)⟩

theorem dlookup_eq_none_of_not_mem_keys (m : List (String × α)) (k : String)
    (h : k ∉ dkeys m) : dlookup m k = none := by
  induction m with
  | nil => rfl
  | cons hd tl ih =>
    obtain ⟨h1, h2⟩ := not_mem_keys_cons h
    simp [dlookup, h1, ih h2]

theorem dinsert_of_not_mem_keys (m : List (String × α)) (k : String) (v : α)
    (h : k ∉ dkeys m) : dinsert m k v = m ++ [(k, v)] := by
  induction m with
  | nil => rfl
  | cons hd tl ih =>
    obtain ⟨h1, h2⟩ := not_mem_keys_cons h
    simp [dinsert, h1, ih h2]

theorem dlookup_dinsert_self (m : List (String × α)) (k : String) (v : α) :
    dlookup (dinsert m k v) k = some v := by
  induction m with
  | nil => simp [dinsert, dlookup]
  | cons hd tl ih =>
    by_cases h : hd.1 = k <;> simp [dinsert, h, dlookup, ih]

@[simp] theorem except_bind_ok (x : α) (g : α → Except String β) :
    (Except.ok x >>= g) = g x := rfl

@[simp] theorem except_bind_err (e : String) (g : α → Except String β) :
    ((Except.error e : Except String α) >>= g) = .error e := rfl

@[simp] theorem except_map_ok (x : α) (g : α → β) :
    (Except.ok x : Except String α).map g = .ok (g x) := rfl

@[simp] theorem except_map_err (e : String) (g : α → β) :
    (Except.error e : Except String α).map g = .error e := rfl

theorem dlookup_eq_none_iff (m : List (String × α)) (k : String) :
    dlookup m k = none ↔ k ∉ dkeys m := by
  constructor
  · intro h hk
    induction m with
    | nil => simp [dkeys] at hk
    | cons hd tl ih =>
      by_cases he : hd.1 = k
      · simp [dlookup, he] at h
      · rw [show dkeys (hd :: tl) = hd.1 :: dkeys tl from rfl] at hk
        rcases List.mem_cons.mp hk with h1 | h1
        · exact he h1.symm
        · exact ih (by simpa [dlookup, he] using h) h1
  · exact dlookup_eq_none_of_not_mem_keys m k

theorem dmem_iff (m : List (String × α)) (k : String) :
    dmem m k = true ↔ k ∈ dkeys m := by
  by_cases h : k ∈ dkeys m
  · simp only [h, iff_true, dmem]
    cases hl : dlookup m k with
    | none => exact absurd ((dlookup_eq_none_iff m k).mp hl) (by simpa using h)
    | some v => rfl
  · simp only [h, iff_false, dmem]
    rw [dlookup_eq_none_of_not_mem_keys m k h]
    simp

theorem mem_dinsert (m : List (String × α)) (k : String) (v : α) (e : String × α)
    (h : e ∈ dinsert m k v) : e ∈ m ∨ e = (k, v) := by
  induction m with
  | nil => simpa [dinsert] using h
  | cons hd tl ih =>
    by_cases he : hd.1 = k
    · simp only [dinsert, if_pos he] at h
      rcases List.mem_cons.mp h with h1 | h1
      · right; rw [h1, he]
      · left; exact List.mem_cons_of_mem _ h1
    · simp only [dinsert, if_neg he] at h
      rcases List.mem_cons.mp h with h1 | h1
      · left; exact h1 ▸ List.mem_cons_self _ _
      · rcases ih h1 with h2 | h2
        · left; exact List.mem_cons_of_mem _ h2
        · right; exact h2

theorem dlookup_dinsert_ne (m : List (String × α)) (k k' : String) (v : α)
    (h : k ≠ k') : dlookup (dinsert m k v) k' = dlookup m k' := by
  induction m with
  | nil => simp [dinsert, dlookup, h]
  | cons hd tl ih =>
    by_cases he : hd.1 = k
    · subst he
      simp [dinsert, dlookup, h]
    · by_cases he' : hd.1 = k' <;> simp [dinsert, he, dlookup, he', ih, Ne.symm h]

theorem dlookup_mem (m : List (String × α)) (k : String) (v : α)
    (h : dlookup m k = some v) : (k, v) ∈ m := by
  induction m with
  | nil => simp [dlookup] at h
  | cons hd tl ih =>
    by_cases he : hd.1 = k
    · simp only [dlookup, if_pos he] at h
      refine List.mem_cons.mpr (Or.inl ?_)
      cases hd with
      | mk a b =>
        simp only at he h
        rw [Prod.mk.injEq]
        exact ⟨he.symm, (Option.some_inj.mp h).symm⟩
    · simp only [dlookup, if_neg he] at h
      exact List.mem_cons_of_mem _ (ih h)

/-! Auxiliary lemmas about `exceptMap`. -/

theorem exceptMap_ok_of_forall (g : α → Except String β) (l : List α)
    (h : ∀ x ∈ l, ∃ y, g x = .ok y) :
    ∃ ys, exceptMap g l = .ok ys ∧ List.Forall₂ (fun x y => g x = .ok y) l ys := by
  induction l with
  | nil => exact ⟨[], rfl, List.Forall₂.nil⟩
  | cons hd tl ih =>
    obtain ⟨y, hy⟩ := h hd (List.mem_cons_self _ _)
    obtain ⟨ys, hys, hf⟩ := ih fun x hx => h x (List.mem_cons_of_mem _ hx)
    exact ⟨y :: ys, by simp [exceptMap, hy, hys], List.Forall₂.cons hy hf⟩

theorem exceptMap_eq_ok_forall₂ (g : α → Except String β) (l : List α) (ys : List β)
    (h : exceptMap g l = .ok ys) : List.Forall₂ (fun x y => g x = .ok y) l ys := by
  induction l generalizing ys with
  | nil =>
    simp only [exceptMap] at h
    rw [← Except.ok.inj h]
    exact List.Forall₂.nil
  | cons hd tl ih =>
    simp only [exceptMap] at h
    cases hy : g hd with
    | error e => rw [hy] at h; simp at h
    | ok y =>
      rw [hy] at h
      simp only [except_bind_ok] at h
      cases hys : exceptMap g tl with
      | error e => rw [hys] at h; simp at h
      | ok ys' =>
        rw [hys] at h
        simp only [except_bind_ok] at h
        rw [← Except.ok.inj h]
        exact List.Forall₂.cons hy (ih ys' hys)

/-! The clean form of `_map_param_to_columns`: since `_map_param_to_alias`
yields every parameter exactly once, the accumulator branches for an
already-present key are dead and the loop is a traversal with `bindOne`. -/

theorem bindOne_key (df : DFrame) (e : String × Option AliasVal) (b : String × BindVal)
    (h : bindOne df e = .ok b) : b.1 = e.1 := by
  by_cases hc : hasCol df e.1
  · simp only [bindOne, if_pos hc] at h
    rw [← Except.ok.inj h]
  · rcases e with ⟨p, a⟩
    cases a with
    | none => simp [bindOne, hc] at h
    | some av =>
      cases av with
      | s nm => simp only [bindOne, hc] at h; rw [← Except.ok.inj h]
      | l nms => simp only [bindOne, hc] at h; rw [← Except.ok.inj h]

theorem mapParamToColumnsAux_clean (df : DFrame) :
    ∀ (entries : List (String × Option AliasVal)) (acc : List (String × BindVal)),
    (dkeys entries).Nodup → (∀ k ∈ dkeys entries, k ∉ dkeys acc) →
    mapParamToColumnsAux df entries acc = (exceptMap (bindOne df) entries).map (acc ++ ·) := by
  intro entries
  induction entries with
  | nil => intro acc _ _; simp [mapParamToColumnsAux, exceptMap]
  | cons hd tl ih =>
    intro acc hnd hdisj
    have hdk : dkeys (hd :: tl) = hd.1 :: dkeys tl := rfl
    have hhd : hd.1 ∉ dkeys acc := hdisj hd.1 (by rw [hdk]; exact List.mem_cons_self _ _)
    have hnd' : (dkeys tl).Nodup := by rw [hdk] at hnd; exact hnd.of_cons
    have hfresh : hd.1 ∉ dkeys tl := by rw [hdk] at hnd; exact (List.nodup_cons.mp hnd).1
    have hlook : dlookup acc hd.1 = none := dlookup_eq_none_of_not_mem_keys _ _ hhd
    have hdisj' : ∀ b : String × BindVal,
        ∀ k ∈ dkeys tl, k ∉ dkeys (acc ++ [(hd.1, b.2)]) := by
      intro b k hk hmem
      rw [show dkeys (acc ++ [(hd.1, b.2)]) = dkeys acc ++ [hd.1] by simp [dkeys]] at hmem
      rcases List.mem_append.mp hmem with h1 | h1
      · exact hdisj k (by rw [hdk]; exact List.mem_cons_of_mem _ hk) h1
      · have hke : k = hd.1 := by simpa using h1
        exact hfresh (hke ▸ hk)
    rcases hd with ⟨p, a⟩
    by_cases hc : hasCol df p
    · have hins : dinsert acc p (.l [p]) = acc ++ [(p, BindVal.l [p])] :=
        dinsert_of_not_mem_keys _ _ _ hhd
      simp only [mapParamToColumnsAux, if_pos hc, hlook, hins]
      rw [ih _ hnd' (hdisj' (p, BindVal.l [p]))]
      simp only [exceptMap, bindOne, if_pos hc, except_bind_ok]
      cases exceptMap (bindOne df) tl with
      | error e => rfl
      | ok ys => simp
    · cases a with
      | none => simp [mapParamToColumnsAux, hc, exceptMap, bindOne]
      | some av =>
        cases av with
        | s nm =>
          have hins : dinsert acc p (.s nm) = acc ++ [(p, BindVal.s nm)] :=
            dinsert_of_not_mem_keys _ _ _ hhd
          simp only [mapParamToColumnsAux, hc, Bool.false_eq_true, if_false, hins]
          rw [ih _ hnd' (hdisj' (p, BindVal.s nm))]
          simp only [exceptMap, bindOne, hc, Bool.false_eq_true, if_false, except_bind_ok]
          cases exceptMap (bindOne df) tl with
          | error e => rfl
          | ok ys => simp
        | l nms =>
          have hins : dinsert acc p (.l (nms.filter fun n => hasCol df n)) =
              acc ++ [(p, BindVal.l (nms.filter fun n => hasCol df n))] :=
            dinsert_of_not_mem_keys _ _ _ hhd
          simp only [mapParamToColumnsAux, hc, Bool.false_eq_true, if_false, hins]
          rw [ih _ hnd' (hdisj' (p, BindVal.l (nms.filter fun n => hasCol df n)))]
          simp only [exceptMap, bindOne, hc, Bool.false_eq_true, if_false, except_bind_ok]
          cases exceptMap (bindOne df) tl with
          | error e => rfl
          | ok ys => simp

theorem nodup_keys_addParam (g : String → Option AliasVal) :
    ∀ (ps : List (String × Bool)) (acc : List (String × Option AliasVal)),
    (dkeys acc).Nodup →
    (dkeys (ps.foldl
      (fun acc2 p => if dmem acc2 p.1 then acc2 else acc2 ++ [(p.1, g p.1)]) acc)).Nodup := by
  intro ps
  induction ps with
  | nil => intro acc h; exact h
  | cons hd tl ih =>
    intro acc h
    simp only [List.foldl_cons]
    by_cases hm : dmem acc hd.1
    · rw [if_pos hm]; exact ih acc h
    · rw [if_neg hm]
      refine ih _ ?_
      rw [show dkeys (acc ++ [(hd.1, g hd.1)]) = dkeys acc ++ [hd.1] by simp [dkeys]]
      refine List.nodup_append.mpr ⟨h, List.nodup_singleton _, ?_⟩
      intro k hk hk1
      have : k = hd.1 := by simpa using hk1
      subst this
      exact hm ((dmem_iff acc hd.1).mpr hk)

theorem mapParamToAlias_keys_nodup (c : VClass) : (dkeys (mapParamToAlias c)).Nodup := by
  rw [mapParamToAlias]
  have main : ∀ (cks : List (String × List (String × Bool)))
      (acc : List (String × Option AliasVal)), (dkeys acc).Nodup →
      (dkeys (cks.foldl (fun acc3 ck => ck.2.foldl
        (fun acc2 p => if dmem acc2 p.1 then acc2
          else acc2 ++ [(p.1, dlookup (aliasAttr c) p.1)]) acc3) acc)).Nodup := by
    intro cks
    induction cks with
    | nil => intro acc h; exact h
    | cons hd tl ih =>
      intro acc h
      simp only [List.foldl_cons]
      exact ih _ (nodup_keys_addParam _ hd.2 acc h)
  exact main _ [] (by simp [dkeys])

theorem bindAll_keys (df : DFrame) (entries : List (String × Option AliasVal))
    (r : List (String × BindVal)) (h : exceptMap (bindOne df) entries = .ok r) :
    dkeys r = dkeys entries := by
  have hf := exceptMap_eq_ok_forall₂ _ _ _ h
  clear h
  induction hf with
  | nil => rfl
  | cons h1 _ ih =>
    rw [show dkeys (_ :: _) = _ :: dkeys _ from rfl,
      show dkeys (_ :: _) = _ :: dkeys _ from rfl, ih, bindOne_key df _ _ h1]

theorem dlookup_bindAll (df : DFrame) (entries : List (String × Option AliasVal))
    (r : List (String × BindVal)) (p : String) (a : Option AliasVal)
    (h : exceptMap (bindOne df) entries = .ok r) (hnd : (dkeys entries).Nodup)
    (hm : (p, a) ∈ entries) :
    ∃ bv, bindOne df (p, a) = .ok (p, bv) ∧ dlookup r p = some bv := by
  have hf := exceptMap_eq_ok_forall₂ _ _ _ h
  clear h
  induction hf with
  | nil => simp at hm
  | @cons x y tl tlr h1 h2 ih =>
    rcases List.mem_cons.mp hm with hcase | hcase
    · have hb := bindOne_key df x y h1
      rw [← hcase] at h1 hb
      refine ⟨y.2, ?_, ?_⟩
      · rw [show ((p, a).1, y.2) = (y.1, y.2) by rw [hb], h1]
      · rw [show dlookup (y :: tlr) p = if y.1 = p then some y.2 else dlookup tlr p from rfl,
          if_pos hb]
    · have hndtl : (dkeys tl).Nodup := by
        rw [show dkeys (x :: tl) = x.1 :: dkeys tl from rfl] at hnd
        exact hnd.of_cons
      have hx1 : x.1 ∉ dkeys tl := by
        rw [show dkeys (x :: tl) = x.1 :: dkeys tl from rfl] at hnd
        exact (List.nodup_cons.mp hnd).1
      have hpk : p ∈ dkeys tl := List.mem_map.mpr ⟨(p, a), hcase, rfl⟩
      have hne : y.1 ≠ p := by
        rw [bindOne_key df x y h1]
        intro hcon
        exact hx1 (hcon ▸ hpk)
      obtain ⟨bv, hbv, hlk⟩ := ih hndtl hcase
      exact ⟨bv, hbv, by
        rw [show dlookup (y :: tlr) p = if y.1 = p then some y.2 else dlookup tlr p from rfl,
          if_neg hne, hlk]⟩

/-! Lemmas about the alias flattening. -/

theorem mem_keys_flatten_step (acc t : AliasMap) (k : String)
    (h : k ∈ dkeys acc ∨ k ∈ dkeys t) :
    k ∈ dkeys (acc ++ t.filter fun kv => (dlookup acc kv.1).isNone) := by
  rw [show dkeys (acc ++ _) = dkeys acc ++ dkeys (t.filter fun kv => (dlookup acc kv.1).isNone)
    by simp [dkeys]]
  rcases h with h | h
  · exact List.mem_append.mpr (Or.inl h)
  · obtain ⟨e, he, hek⟩ := List.mem_map.mp h
    cases hl : dlookup acc k with
    | some v => exact List.mem_append.mpr (Or.inl (List.mem_map.mpr ⟨(k, v), dlookup_mem _ _ _ hl, rfl⟩))
    | none =>
      refine List.mem_append.mpr (Or.inr ?_)
      refine List.mem_map.mpr ⟨e, List.mem_filter.mpr ⟨he, ?_⟩, hek⟩
      rw [hek, hl]
      rfl

theorem flattenLoop_from_some (chain : List AliasMap) :
    ∀ acc : AliasMap, ∃ m, chain.foldl getAllAliasMappingStep (some acc) = some m ∧
      (∀ k, k ∈ dkeys acc → k ∈ dkeys m) ∧
      (∀ L ∈ chain, ∀ k, k ∈ dkeys L → k ∈ dkeys m) := by
  induction chain with
  | nil => intro acc; exact ⟨acc, rfl, fun _ h => h, by simp⟩
  | cons hd tl ih =>
    intro acc
    obtain ⟨m, hm, hacc, hlay⟩ :=
      ih (acc ++ hd.filter fun kv => (dlookup acc kv.1).isNone)
    refine ⟨m, ?_, ?_, ?_⟩
    · rw [List.foldl_cons]; exact hm
    · intro k hk; exact hacc k (mem_keys_flatten_step acc hd k (Or.inl hk))
    · intro L hL k hk
      rcases List.mem_cons.mp hL with hL | hL
      · exact hacc k (mem_keys_flatten_step acc hd k (Or.inr (hL ▸ hk)))
      · exact hlay L hL k hk

theorem flattenLoop_fixed (rest : List AliasMap) :
    ∀ F : AliasMap, (∀ L ∈ rest, ∀ k, k ∈ dkeys L → k ∈ dkeys F) →
    rest.foldl getAllAliasMappingStep (some F) = some F := by
  induction rest with
  | nil => intro F _; rfl
  | cons hd tl ih =>
    intro F h
    have hfil : (hd.filter fun kv => (dlookup F kv.1).isNone) = [] := by
      refine List.filter_eq_nil_iff.mpr ?_
      intro kv hkv
      have hk : kv.1 ∈ dkeys F :=
        h hd (List.mem_cons_self _ _) kv.1 (List.mem_map.mpr ⟨kv, hkv, rfl⟩)
      cases hl : dlookup F kv.1 with
      | none => exact absurd ((dlookup_eq_none_iff _ _).mp hl) (by simpa using hk)
      | some v => simp [hl]
    rw [List.foldl_cons, getAllAliasMappingStep, hfil, List.append_nil]
    exact ih F fun L hL => h L (List.mem_cons_of_mem _ hL)

theorem flattenLoop_none (chain : List AliasMap) (hne : chain ≠ []) :
    ∃ m, chain.foldl getAllAliasMappingStep none = some m ∧
      ∀ L ∈ chain, ∀ k, k ∈ dkeys L → k ∈ dkeys m := by
  cases chain with
  | nil => exact absurd rfl hne
  | cons hd tl =>
    obtain ⟨m, hm, hacc, hlay⟩ := flattenLoop_from_some tl hd
    refine ⟨m, by rw [List.foldl_cons]; exact hm, ?_⟩
    intro L hL k hk
    rcases List.mem_cons.mp hL with hL | hL
    · exact hacc k (hL ▸ hk)
    · exact hlay L hL k hk

theorem aliasChain_ne_nil (c : VClass) : aliasChain c ≠ [] := by
  simp [aliasChain]

theorem getAllAliasMappingInClass_step0 (c : VClass) :
    getAllAliasMappingInClass (step0 c) = getAllAliasMappingInClass c := by
  obtain ⟨m, hm, hlay⟩ := flattenLoop_none (aliasChain c) (aliasChain_ne_nil c)
  have hF : getAllAliasMappingInClass c = m := by
    rw [getAllAliasMappingInClass, getAllAliasMappingLoop, hm]; rfl
  have hchain : aliasChain (step0 c) =
      getAllAliasMappingInClass c :: (c.parentAliases ++ [[]]) := rfl
  have hsub : ∀ L ∈ c.parentAliases ++ [[]], ∀ k, k ∈ dkeys L → k ∈ dkeys m := by
    intro L hL k hk
    refine hlay L ?_ k hk
    rw [aliasChain, List.append_assoc]
    exact List.mem_append.mpr (Or.inr hL)
  rw [getAllAliasMappingInClass, getAllAliasMappingLoop, hchain, List.foldl_cons]
  rw [show getAllAliasMappingStep none (getAllAliasMappingInClass c) =
    some (getAllAliasMappingInClass c) from rfl]
  rw [hF, flattenLoop_fixed _ m hsub]
  rfl

theorem aliasAttr_step0 (c : VClass) :
    aliasAttr (step0 c) = getAllAliasMappingInClass c := rfl

theorem mapParamToAlias_congr (c₁ c₂ : VClass) (h1 : aliasAttr c₁ = aliasAttr c₂)
    (h2 : c₁.checks = c₂.checks) : mapParamToAlias c₁ = mapParamToAlias c₂ := by
  rw [mapParamToAlias, mapParamToAlias, getFunctionParamAndType, getFunctionParamAndType,
    h1, h2]

theorem partitionFold_eq (paramSet : List String) :
    ∀ (pm : List (String × BindVal)) (acc : List (String × String) × List (String × List String)),
    (dkeys pm).Nodup → (∀ k ∈ dkeys pm, k ∉ dkeys acc.1) → (∀ k ∈ dkeys pm, k ∉ dkeys acc.2) →
    pm.foldl (partitionStep paramSet) acc =
      (acc.1 ++ staticOf paramSet pm, acc.2 ++ sharedOf paramSet pm) := by
  intro pm
  induction pm with
  | nil => intro acc _ _ _; simp [staticOf, sharedOf]
  | cons pf rest ih =>
    intro acc hnd hd1 hd2
    have hdk : dkeys (pf :: rest) = pf.1 :: dkeys rest := rfl
    have hnd' : (dkeys rest).Nodup := by rw [hdk] at hnd; exact hnd.of_cons
    have hfresh : pf.1 ∉ dkeys rest := by rw [hdk] at hnd; exact (List.nodup_cons.mp hnd).1
    have hpf1 : pf.1 ∉ dkeys acc.1 := hd1 pf.1 (by rw [hdk]; exact List.mem_cons_self _ _)
    have hpf2 : pf.1 ∉ dkeys acc.2 := hd2 pf.1 (by rw [hdk]; exact List.mem_cons_self _ _)
    have hrest1 : ∀ k ∈ dkeys rest, k ∉ dkeys acc.1 :=
      fun k hk => hd1 k (by rw [hdk]; exact List.mem_cons_of_mem _ hk)
    have hrest2 : ∀ k ∈ dkeys rest, k ∉ dkeys acc.2 :=
      fun k hk => hd2 k (by rw [hdk]; exact List.mem_cons_of_mem _ hk)
    have happ1 : ∀ (v : String), ∀ k ∈ dkeys rest, k ∉ dkeys (acc.1 ++ [(pf.1, v)]) := by
      intro v k hk hmem
      rw [show dkeys (acc.1 ++ [(pf.1, v)]) = dkeys acc.1 ++ [pf.1] by simp [dkeys]] at hmem
      rcases List.mem_append.mp hmem with h | h
      · exact hrest1 k hk h
      · have : k = pf.1 := by simpa using h
        exact hfresh (this ▸ hk)
    have happ2 : ∀ (v : List String), ∀ k ∈ dkeys rest, k ∉ dkeys (acc.2 ++ [(pf.1, v)]) := by
      intro v k hk hmem
      rw [show dkeys (acc.2 ++ [(pf.1, v)]) = dkeys acc.2 ++ [pf.1] by simp [dkeys]] at hmem
      rcases List.mem_append.mp hmem with h | h
      · exact hrest2 k hk h
      · have : k = pf.1 := by simpa using h
        exact hfresh (this ▸ hk)
    rw [List.foldl_cons]
    by_cases hin : paramSet.contains pf.1
    · have hin' : pf.1 ∈ paramSet := by simpa using hin
      cases hbv : pf.2 with
      | s fieldName =>
        have hstep : partitionStep paramSet acc pf = (acc.1 ++ [(pf.1, fieldName)], acc.2) := by
          rw [partitionStep, if_pos hin, hbv]
          show (dinsert acc.1 pf.1 fieldName, acc.2) = _
          rw [dinsert_of_not_mem_keys _ _ _ hpf1]
        rw [hstep, ih (acc.1 ++ [(pf.1, fieldName)], acc.2) hnd' (happ1 fieldName) hrest2]
        rw [show staticOf paramSet (pf :: rest) = (pf.1, fieldName) :: staticOf paramSet rest by
          simp [staticOf, staticSel, List.filterMap_cons, hin', hbv]]
        rw [show sharedOf paramSet (pf :: rest) = sharedOf paramSet rest by
          simp [sharedOf, sharedSel, List.filterMap_cons, hin', hbv]]
        simp
      | l fields =>
        by_cases hlen1 : fields.length = 1
        · have hstep : partitionStep paramSet acc pf =
              (acc.1 ++ [(pf.1, fields.headD "")], acc.2) := by
            rw [partitionStep, if_pos hin, hbv]
            show (if fields.length = 1 then (dinsert acc.1 pf.1 (fields.headD ""), acc.2)
              else if 1 < fields.length then (acc.1, dinsert acc.2 pf.1 fields) else acc) = _
            rw [if_pos hlen1, dinsert_of_not_mem_keys _ _ _ hpf1]
          rw [hstep, ih (acc.1 ++ [(pf.1, fields.headD "")], acc.2) hnd' (happ1 (fields.headD "")) hrest2]
          rw [show staticOf paramSet (pf :: rest) =
              (pf.1, fields.headD "") :: staticOf paramSet rest by
            simp [staticOf, staticSel, List.filterMap_cons, hin', hbv, hlen1]]
          rw [show sharedOf paramSet (pf :: rest) = sharedOf paramSet rest by
            simp [sharedOf, sharedSel, List.filterMap_cons, hin', hbv, Nat.lt_irrefl, hlen1]]
          simp
        · by_cases hlen2 : 1 < fields.length
          · have hstep : partitionStep paramSet acc pf =
                (acc.1, acc.2 ++ [(pf.1, fields)]) := by
              rw [partitionStep, if_pos hin, hbv]
              show (if fields.length = 1 then (dinsert acc.1 pf.1 (fields.headD ""), acc.2)
                else if 1 < fields.length then (acc.1, dinsert acc.2 pf.1 fields) else acc) = _
              rw [if_neg hlen1, if_pos hlen2, dinsert_of_not_mem_keys _ _ _ hpf2]
            rw [hstep, ih (acc.1, acc.2 ++ [(pf.1, fields)]) hnd' hrest1 (happ2 fields)]
            rw [show staticOf paramSet (pf :: rest) = staticOf paramSet rest by
              simp [staticOf, staticSel, List.filterMap_cons, hin', hbv, hlen1]]
            rw [show sharedOf paramSet (pf :: rest) = (pf.1, fields) :: sharedOf paramSet rest by
              simp [sharedOf, sharedSel, List.filterMap_cons, hin', hbv, hlen2]]
            simp
          · have hstep : partitionStep paramSet acc pf = acc := by
              rw [partitionStep, if_pos hin, hbv]
              show (if fields.length = 1 then (dinsert acc.1 pf.1 (fields.headD ""), acc.2)
                else if 1 < fields.length then (acc.1, dinsert acc.2 pf.1 fields) else acc) = _
              rw [if_neg hlen1, if_neg hlen2]
            rw [hstep, ih acc hnd' hrest1 hrest2]
            rw [show staticOf paramSet (pf :: rest) = staticOf paramSet rest by
              simp [staticOf, staticSel, List.filterMap_cons, hin', hbv, hlen1]]
            rw [show sharedOf paramSet (pf :: rest) = sharedOf paramSet rest by
              simp [sharedOf, sharedSel, List.filterMap_cons, hin', hbv, hlen2]]
    · have hin' : pf.1 ∉ paramSet := by simpa using hin
      have hstep : partitionStep paramSet acc pf = acc := by
        rw [partitionStep, if_neg hin]
      rw [hstep, ih acc hnd' hrest1 hrest2]
      rw [show staticOf paramSet (pf :: rest) = staticOf paramSet rest by
        simp [staticOf, staticSel, List.filterMap_cons, hin']]
      rw [show sharedOf paramSet (pf :: rest) = sharedOf paramSet rest by
        simp [sharedOf, sharedSel, List.filterMap_cons, hin']]


theorem partitionParams_eq (pm : List (String × BindVal)) (paramSet : List String)
    (hnd : (dkeys pm).Nodup) :
    partitionParams pm paramSet = (staticOf paramSet pm, sharedOf paramSet pm) := by
  rw [partitionParams, partitionFold_eq paramSet pm ([], []) hnd (by simp [dkeys]) (by simp [dkeys])]
  simp

theorem dlookup_filterMap (g : (String × BindVal) → Option (String × γ))
    (hkey : ∀ pf e, g pf = some e → e.1 = pf.1) :
    ∀ (pm : List (String × BindVal)), (dkeys pm).Nodup → ∀ (p : String) (bv : BindVal),
    dlookup pm p = some bv → dlookup (pm.filterMap g) p = (g (p, bv)).map Prod.snd := by
  have hsub : ∀ (pm : List (String × BindVal)) (k : String),
      k ∈ dkeys (pm.filterMap g) → k ∈ dkeys pm := by
    intro pm k hk
    obtain ⟨e, he, hek⟩ := List.mem_map.mp hk
    obtain ⟨pf, hpf, hgpf⟩ := List.mem_filterMap.mp he
    exact List.mem_map.mpr ⟨pf, hpf, by rw [← hkey pf e hgpf, hek]⟩
  intro pm
  induction pm with
  | nil => intro _ p bv h; simp [dlookup] at h
  | cons pf rest ih =>
    intro hnd p bv h
    have hdk : dkeys (pf :: rest) = pf.1 :: dkeys rest := rfl
    have hnd' : (dkeys rest).Nodup := by rw [hdk] at hnd; exact hnd.of_cons
    have hfresh : pf.1 ∉ dkeys rest := by rw [hdk] at hnd; exact (List.nodup_cons.mp hnd).1
    by_cases he : pf.1 = p
    · have hbv : pf = (p, bv) := by
        rw [show dlookup (pf :: rest) p = if pf.1 = p then some pf.2 else dlookup rest p
          from rfl, if_pos he] at h
        cases pf with
        | mk a b =>
          simp only at he h ⊢
          rw [Prod.mk.injEq]
          exact ⟨he, Option.some_inj.mp h⟩
      rw [List.filterMap_cons]
      cases hg : g pf with
      | none =>
        have hnone : dlookup (rest.filterMap g) p = none := by
          refine dlookup_eq_none_of_not_mem_keys _ _ ?_
          intro hmem
          exact hfresh (he ▸ hsub rest p hmem)
        rw [hnone, ← hbv, hg]
        rfl
      | some e =>
        have he1 : e.1 = p := by rw [hkey pf e hg, he]
        rw [show dlookup (e :: rest.filterMap g) p =
          if e.1 = p then some e.2 else dlookup (rest.filterMap g) p from rfl, if_pos he1]
        rw [← hbv, hg]
        rfl
    · rw [show dlookup (pf :: rest) p = if pf.1 = p then some pf.2 else dlookup rest p
        from rfl, if_neg he] at h
      rw [List.filterMap_cons]
      cases hg : g pf with
      | none => exact ih hnd' p bv h
      | some e =>
        have he1 : e.1 ≠ p := by rw [hkey pf e hg]; exact he
        rw [show dlookup (e :: rest.filterMap g) p =
          if e.1 = p then some e.2 else dlookup (rest.filterMap g) p from rfl, if_neg he1]
        exact ih hnd' p bv h

/-! Lemmas about the error-log row selection. -/

theorem mem_selectIdxFalse : ∀ (l : List Bool) (k i : Nat),
    i ∈ selectIdxFalse l k ↔ ∃ j, j < l.length ∧ l.getD j true = false ∧ i = k + j := by
  intro l
  induction l with
  | nil => intro k i; simp [selectIdxFalse]
  | cons b rest ih =>
    intro k i
    cases b with
    | true =>
      rw [show selectIdxFalse (true :: rest) k = selectIdxFalse rest (k + 1) from rfl]
      rw [ih (k + 1) i]
      constructor
      · rintro ⟨j, hj, hf, hi⟩
        exact ⟨j + 1, by simpa using hj, by simpa using hf, by omega⟩
      · rintro ⟨j, hj, hf, hi⟩
        cases j with
        | zero => simp at hf
        | succ j' =>
          exact ⟨j', by simpa using hj, by simpa using hf, by omega⟩
    | false =>
      rw [show selectIdxFalse (false :: rest) k = k :: selectIdxFalse rest (k + 1) from rfl]
      rw [List.mem_cons, ih (k + 1) i]
      constructor
      · rintro (hi | ⟨j, hj, hf, hi⟩)
        · exact ⟨0, by simp, by simp, by omega⟩
        · exact ⟨j + 1, by simpa using hj, by simpa using hf, by omega⟩
      · rintro ⟨j, hj, hf, hi⟩
        cases j with
        | zero => left; omega
        | succ j' =>
          right
          exact ⟨j', by simpa using hj, by simpa using hf, by omega⟩

theorem mem_selectFailedRows (df : DFrame) (g : Option String) (r : ResultWrapper)
    (e : ErrRow) :
    e ∈ selectFailedRows df g r ↔ ∃ i, i < r.result.length ∧ r.result.getD i true = false ∧
      e = ⟨rowCells df i, r.functionName, g⟩ := by
  rw [selectFailedRows]
  constructor
  · intro h
    obtain ⟨i, hi, hei⟩ := List.mem_map.mp h
    obtain ⟨j, hj, hf, hij⟩ := (mem_selectIdxFalse r.result 0 i).mp hi
    exact ⟨j, hj, hf, by rw [← hei, hij]; simp⟩
  · rintro ⟨i, hi, hf, he⟩
    refine List.mem_map.mpr ⟨i, ?_, he.symm⟩
    exact (mem_selectIdxFalse r.result 0 i).mpr ⟨i, hi, hf, by omega⟩

/-! Lemmas about the summary sort. -/

theorem perm_insertByFailedDesc (x : SummaryRow) (l : List SummaryRow) :
    (insertByFailedDesc x l).Perm (x :: l) := by
  induction l with
  | nil => exact List.Perm.refl _
  | cons y ys ih =>
    rw [insertByFailedDesc]
    by_cases h : y.totalFailed ≤ x.totalFailed
    · rw [if_pos h]
    · rw [if_neg h]
      exact (ih.cons y).trans (List.Perm.swap x y ys)

theorem perm_sortByFailedDesc (l : List SummaryRow) : (sortByFailedDesc l).Perm l := by
  induction l with
  | nil => exact List.Perm.refl _
  | cons x xs ih =>
    rw [sortByFailedDesc]
    exact (perm_insertByFailedDesc x (sortByFailedDesc xs)).trans (ih.cons x)

theorem pairwise_insertByFailedDesc (x : SummaryRow) (l : List SummaryRow)
    (h : l.Pairwise fun a b => b.totalFailed ≤ a.totalFailed) :
    (insertByFailedDesc x l).Pairwise fun a b => b.totalFailed ≤ a.totalFailed := by
  induction l with
  | nil => simp [insertByFailedDesc]
  | cons y ys ih =>
    rw [insertByFailedDesc]
    by_cases hc : y.totalFailed ≤ x.totalFailed
    · rw [if_pos hc]
      refine List.Pairwise.cons ?_ h
      intro z hz
      rcases List.mem_cons.mp hz with hz | hz
      · rw [hz]; exact hc
      · exact le_trans ((List.pairwise_cons.mp h).1 z hz) hc
    · rw [if_neg hc]
      have hxy : x.totalFailed < y.totalFailed := Nat.lt_of_not_le hc
      refine List.Pairwise.cons ?_ (ih (List.pairwise_cons.mp h).2)
      intro z hz
      have hz' : z ∈ x :: ys := (perm_insertByFailedDesc x ys).mem_iff.mp hz
      rcases List.mem_cons.mp hz' with hz' | hz'
      · rw [hz']; exact Nat.le_of_lt hxy
      · exact (List.pairwise_cons.mp h).1 z hz'

theorem sorted_sortByFailedDesc (l : List SummaryRow) :
    (sortByFailedDesc l).Pairwise fun a b => b.totalFailed ≤ a.totalFailed := by
  induction l with
  | nil => simp [sortByFailedDesc]
  | cons x xs ih =>
    rw [sortByFailedDesc]
    exact pairwise_insertByFailedDesc x _ ih

/-! Lemmas about the series dispatch. -/

theorem buildNewKeys_ok (df : DFrame) :
    ∀ (argsList : List ArgSet) (acc : List (String × List (String × List Int))),
    (∀ ap ∈ argsList, ∃ a, seriesArgs df ap = .ok a) →
    (dkeys acc ++ argsList.map fun ap => convertDictToRefNames ap false).Nodup →
    ∃ tail, buildNewKeys df argsList acc = .ok (acc ++ tail) ∧
      List.Forall₂ (fun (ap : ArgSet) (kv : String × List (String × List Int)) =>
        kv.1 = convertDictToRefNames ap false ∧ seriesArgs df ap = .ok kv.2) argsList tail := by
  intro argsList
  induction argsList with
  | nil =>
    intro acc _ _
    exact ⟨[], by simp [buildNewKeys], List.Forall₂.nil⟩
  | cons ap rest ih =>
    intro acc hargs hnd
    obtain ⟨a, ha⟩ := hargs ap (List.mem_cons_self _ _)
    have hrefmem : convertDictToRefNames ap false ∉ dkeys acc := by
      intro hmem
      have := List.nodup_append.mp hnd
      exact this.2.2 hmem (by simp)
    have hins : dinsert acc (convertDictToRefNames ap false) a =
        acc ++ [(convertDictToRefNames ap false, a)] :=
      dinsert_of_not_mem_keys _ _ _ hrefmem
    have hnd' : (dkeys (acc ++ [(convertDictToRefNames ap false, a)]) ++
        rest.map fun ap2 => convertDictToRefNames ap2 false).Nodup := by
      rw [show dkeys (acc ++ [(convertDictToRefNames ap false, a)]) =
        dkeys acc ++ [convertDictToRefNames ap false] by simp [dkeys]]
      rw [List.append_assoc]
      simpa using hnd
    obtain ⟨tail, htail, hf⟩ := ih (acc ++ [(convertDictToRefNames ap false, a)])
      (fun x hx => hargs x (List.mem_cons_of_mem _ hx)) hnd'
    refine ⟨(convertDictToRefNames ap false, a) :: tail, ?_, List.Forall₂.cons ⟨rfl, ha⟩ hf⟩
    rw [buildNewKeys, ha]
    simp only [except_bind_ok, hins, htail]
    rw [List.append_assoc]
    rfl

/-! Lemmas about the record expansion. -/

theorem minValLen_pair (p1 p2 : String) (cs1 cs2 : List String) :
    minValLen [(p1, cs1), (p2, cs2)] = min cs1.length cs2.length := by
  simp [minValLen]

theorem convertDictToRecords_pair (p1 p2 : String) (cs1 cs2 : List String)
    (h1 : 0 < cs1.length) (h2 : 0 < cs2.length) :
    convertDictToRecords [(p1, cs1), (p2, cs2)] =
      (List.range (min cs1.length cs2.length)).map
        fun i => [(p1, cs1.getD i ""), (p2, cs2.getD i "")] := by
  rw [convertDictToRecords]
  simp only [minValLen_pair, List.isEmpty_cons, ite_false, Bool.false_eq_true, if_false]
  rw [if_neg]
  · rfl
  · intro hcon
    cases hR : List.range (min cs1.length cs2.length) with
    | nil =>
      have hlen := congrArg List.length hR
      simp only [List.length_range, List.length_nil] at hlen
      omega
    | cons a as =>
      rw [hR] at hcon
      simp at hcon

theorem dlookup_filter_of_none (d : List (String × α)) (b : List (String × α)) (k : String)
    (h : dlookup d k = none) :
    dlookup (b.filter fun kv => (dlookup d kv.1).isNone) k = dlookup b k := by
  induction b with
  | nil => rfl
  | cons hd tl ih =>
    by_cases he : hd.1 = k
    · have hp : (dlookup d hd.1).isNone = true := by rw [he, h]; rfl
      rw [List.filter_cons, if_pos hp]
      rw [show dlookup (hd :: (tl.filter fun kv => (dlookup d kv.1).isNone)) k =
        if hd.1 = k then some hd.2 else dlookup (tl.filter fun kv => (dlookup d kv.1).isNone) k
        from rfl, if_pos he]
      rw [show dlookup (hd :: tl) k = if hd.1 = k then some hd.2 else dlookup tl k from rfl,
        if_pos he]
    · rw [List.filter_cons]
      by_cases hp : (dlookup d hd.1).isNone = true
      · rw [if_pos hp]
        rw [show dlookup (hd :: (tl.filter fun kv => (dlookup d kv.1).isNone)) k =
          if hd.1 = k then some hd.2 else dlookup (tl.filter fun kv => (dlookup d kv.1).isNone) k
          from rfl, if_neg he, ih]
        rw [show dlookup (hd :: tl) k = if hd.1 = k then some hd.2 else dlookup tl k from rfl,
          if_neg he]
      · rw [if_neg hp, ih]
        rw [show dlookup (hd :: tl) k = if hd.1 = k then some hd.2 else dlookup tl k from rfl,
          if_neg he]

/-- C1 (counterexample): with base `{a: [X]}` and derived
`{a: [Y], b: [Z]}`, `_get_all_alias_mapping_in_class` keeps the derived
class's value `[Y]` for `a`, not the base value `[X]` the claim requires:
the flattened map is `{a: [Y], b: [Z]}`, not `{a: [X], b: [Z]}`. -/
theorem c1_counterexample :
    getAllAliasMappingInClass c1Class = [("a", .l ["Y"]), ("b", .l ["Z"])] ∧
    dlookup (getAllAliasMappingInClass c1Class) "a" = some (.l ["Y"]) ∧
    AliasVal.l ["Y"] ≠ AliasVal.l ["X"] ∧
    getAllAliasMappingInClass c1Class ≠ [("a", .l ["X"]), ("b", .l ["Z"])] :=
  ⟨rfl, rfl, by decide, by decide⟩

/-- C1 (amended): `_get_all_alias_mapping_in_class` iterates `cls.__mro__`
most-derived first, so for a key defined by both layers the flattened map
keeps the most-derived class's value, and a key the derived layer does not
define is filled in from the base layer. -/
theorem c1_flatten_keeps_derived (d b : AliasMap) (k : String) :
    (∀ v, dlookup d k = some v →
      dlookup (getAllAliasMappingInClass ⟨some d, [b], []⟩) k = some v) ∧
    (dlookup d k = none →
      dlookup (getAllAliasMappingInClass ⟨some d, [b], []⟩) k = dlookup b k) := by
  have hshape : getAllAliasMappingInClass ⟨some d, [b], []⟩ =
      d ++ b.filter fun kv => (dlookup d kv.1).isNone := by
    simp [getAllAliasMappingInClass, getAllAliasMappingLoop, aliasChain,
      getAllAliasMappingStep, List.foldl]
  constructor
  · intro v hv
    rw [hshape, dlookup_append, hv]
    rfl
  · intro hz
    rw [hshape, dlookup_append, hz]
    rw [show (Option.orElse none fun _ =>
      dlookup (b.filter fun kv => (dlookup d kv.1).isNone) k) =
      dlookup (b.filter fun kv => (dlookup d kv.1).isNone) k from rfl]
    exact dlookup_filter_of_none d b k hz

/-- C1 (witness): instantiation of the amended flattening property on the
concrete derived and base alias maps. -/
theorem c1_flatten_keeps_derived_witness :
    dlookup (getAllAliasMappingInClass ⟨some c1Derived, [c1Base2], []⟩) "a" =
      some (.l ["Y"]) ∧
    dlookup (getAllAliasMappingInClass ⟨some c1Derived, [c1Base2], []⟩) "c" =
      some (.l ["W"]) :=
  ⟨(c1_flatten_keeps_derived c1Derived c1Base2 "a").1 (.l ["Y"]) rfl,
    ((c1_flatten_keeps_derived c1Derived c1Base2 "c").2 rfl).trans rfl⟩

/-- C9: binding is idempotent.  `_run_validation` first reassigns
`cls.alias_mapping` to the flattened map (STEP 0) and then binds; a second
run repeats STEP 0 on the updated class and observes the same alias
mapping, so `_map_param_to_columns` returns the identical binding. -/
theorem c9_binding_idempotent (c : VClass) (df : DFrame) :
    mapParamToColumns (step0 (step0 c)) df = mapParamToColumns (step0 c) df ∧
    aliasAttr (step0 (step0 c)) = aliasAttr (step0 c) := by
  have halias : aliasAttr (step0 (step0 c)) = aliasAttr (step0 c) := by
    rw [aliasAttr_step0, aliasAttr_step0, getAllAliasMappingInClass_step0]
  refine ⟨?_, halias⟩
  rw [mapParamToColumns, mapParamToColumns,
    mapParamToAlias_congr (step0 (step0 c)) (step0 c) halias rfl]

/-- Key preservation of the one-to-one selector. -/
theorem staticSel_key (paramSet : List String) :
    ∀ (pf : String × BindVal) (e : String × String),
    staticSel paramSet pf = some e → e.1 = pf.1 := by
  intro pf e hg
  rcases pf with ⟨pk, pv⟩
  cases pv with
  | s fn =>
    simp only [staticSel] at hg
    by_cases hi : paramSet.contains pk
    · rw [if_pos hi] at hg
      rw [← Option.some_inj.mp hg]
    · rw [if_neg hi] at hg; exact absurd hg (by simp)
  | l fl =>
    simp only [staticSel] at hg
    by_cases hi : paramSet.contains pk
    · rw [if_pos hi] at hg
      by_cases hl : fl.length = 1
      · rw [if_pos hl] at hg
        rw [← Option.some_inj.mp hg]
      · rw [if_neg hl] at hg; exact absurd hg (by simp)
    · rw [if_neg hi] at hg; exact absurd hg (by simp)

/-- Key preservation of the one-to-many selector. -/
theorem sharedSel_key (paramSet : List String) :
    ∀ (pf : String × BindVal) (e : String × List String),
    sharedSel paramSet pf = some e → e.1 = pf.1 := by
  intro pf e hg
  rcases pf with ⟨pk, pv⟩
  cases pv with
  | s fn =>
    simp only [sharedSel] at hg
    by_cases hi : paramSet.contains pk
    · rw [if_pos hi] at hg; exact absurd hg (by simp)
    · rw [if_neg hi] at hg; exact absurd hg (by simp)
  | l fl =>
    simp only [sharedSel] at hg
    by_cases hi : paramSet.contains pk
    · rw [if_pos hi] at hg
      by_cases hl : 1 < fl.length
      · rw [if_pos hl] at hg
        rw [← Option.some_inj.mp hg]
      · rw [if_neg hl] at hg; exact absurd hg (by simp)
    · rw [if_neg hi] at hg; exact absurd hg (by simp)

/-- Reduction of `bindOne` at a destructured pair. -/
theorem bindOne_spec (df : DFrame) (param : String) (av : Option AliasVal) :
    bindOne df (param, av) =
      if hasCol df param then .ok (param, .l [param])
      else
        match av with
        | none => .error ("KeyError: " ++ param)
        | some (.s a) => .ok (param, .s a)
        | some (.l names) => .ok (param, .l (names.filter fun n => hasCol df n)) := rfl

/-- C3 (counterexample): parameter `price` is not a dataset column and its
alias entry is the single string `"Total Price"`; the binder copies the
string through with no presence filter and binds statically to the absent
column `"Total Price"`, although the claim requires the aliased names to
be filtered to the columns actually present (which would leave none). -/
theorem c3_counterexample :
    hasCol exDFId "price" = false ∧
    dlookup (aliasAttr (step0 exClass3)) "price" = some (.s "Total Price") ∧
    hasCol exDFId "Total Price" = false ∧
    mapParamToColumns (step0 exClass3) exDFId = .ok [("price", .s "Total Price")] :=
  ⟨rfl, rfl, rfl, rfl⟩

/-- C3 (amended): per parameter, an exact column-name match binds to the
parameter's own name and the alias entry is not consulted; otherwise a
list alias is filtered to the columns present in the dataset, a singleton
surviving list is classified one-to-one (static) and a longer list
one-to-many (shared) by `_map_function_to_args`; but a single-string alias
is copied through unfiltered, binding statically even to an absent
column. -/
theorem c3_binding_precedence (c : VClass) (df : DFrame) (r : List (String × BindVal))
    (param : String) (av : Option AliasVal)
    (hok : mapParamToColumns (step0 c) df = .ok r)
    (hmem : (param, av) ∈ mapParamToAlias (step0 c)) :
    (hasCol df param = true → dlookup r param = some (.l [param])) ∧
    (hasCol df param = false → ∀ names, av = some (.l names) →
      dlookup r param = some (.l (names.filter fun n => hasCol df n))) ∧
    (hasCol df param = false → ∀ a, av = some (.s a) → dlookup r param = some (.s a)) ∧
    (∀ col paramSet, dlookup r param = some (.l [col]) → paramSet.contains param = true →
      dlookup (partitionParams r paramSet).1 param = some col ∧
      dlookup (partitionParams r paramSet).2 param = none) ∧
    (∀ cols paramSet, dlookup r param = some (.l cols) → 1 < cols.length →
      paramSet.contains param = true →
      dlookup (partitionParams r paramSet).2 param = some cols) := by
  have hnd := mapParamToAlias_keys_nodup (step0 c)
  have hclean := mapParamToColumnsAux_clean df (mapParamToAlias (step0 c)) [] hnd
    (by simp [dkeys])
  rw [mapParamToColumns, hclean] at hok
  cases hbx : exceptMap (bindOne df) (mapParamToAlias (step0 c)) with
  | error e => rw [hbx] at hok; simp at hok
  | ok r0 =>
    rw [hbx] at hok
    simp only [except_map_ok, List.nil_append] at hok
    have hr : r0 = r := Except.ok.inj hok
    subst hr
    have hrnd : (dkeys r0).Nodup := by
      rw [bindAll_keys df _ _ hbx]
      exact hnd
    obtain ⟨bv, hbv, hlk⟩ := dlookup_bindAll df _ r0 param av hbx hnd hmem
    rw [bindOne_spec] at hbv
    refine ⟨?_, ?_, ?_, ?_, ?_⟩
    · intro hc
      rw [if_pos hc] at hbv
      have h2 : (param, BindVal.l [param]) = (param, bv) := Except.ok.inj hbv
      rw [hlk, ← ((Prod.mk.injEq _ _ _ _).mp h2).2]
    · intro hc names hav
      rw [hc] at hbv
      simp only [Bool.false_eq_true, if_false] at hbv
      rw [hav] at hbv
      have h2 : (param, BindVal.l (names.filter fun n => hasCol df n)) = (param, bv) :=
        Except.ok.inj hbv
      rw [hlk, ← ((Prod.mk.injEq _ _ _ _).mp h2).2]
    · intro hc a hav
      rw [hc] at hbv
      simp only [Bool.false_eq_true, if_false] at hbv
      rw [hav] at hbv
      have h2 : (param, BindVal.s a) = (param, bv) := Except.ok.inj hbv
      rw [hlk, ← ((Prod.mk.injEq _ _ _ _).mp h2).2]
    · intro col paramSet hcol hin
      rw [partitionParams_eq r0 paramSet hrnd]
      have hin' : param ∈ paramSet := by simpa using hin
      constructor
      · rw [show (staticOf paramSet r0, sharedOf paramSet r0).1 = staticOf paramSet r0
          from rfl]
        rw [staticOf,
          dlookup_filterMap (staticSel paramSet) (staticSel_key paramSet) r0 hrnd param _ hcol]
        simp [staticSel, hin']
      · rw [show (staticOf paramSet r0, sharedOf paramSet r0).2 = sharedOf paramSet r0
          from rfl]
        rw [sharedOf,
          dlookup_filterMap (sharedSel paramSet) (sharedSel_key paramSet) r0 hrnd param _ hcol]
        simp [sharedSel, hin']
    · intro cols paramSet hcol hlen hin
      rw [partitionParams_eq r0 paramSet hrnd]
      have hin' : param ∈ paramSet := by simpa using hin
      rw [show (staticOf paramSet r0, sharedOf paramSet r0).2 = sharedOf paramSet r0
        from rfl]
      rw [sharedOf,
        dlookup_filterMap (sharedSel paramSet) (sharedSel_key paramSet) r0 hrnd param _ hcol]
      simp [sharedSel, hin', hlen]

/-- C3 (witness): on the concrete class `c3Class` and dataset `c3DF`,
parameter `price` (list alias, two surviving columns) is bound to the
filtered list and classified shared. -/
theorem c3_binding_precedence_witness :
    dlookup [("x", BindVal.l ["x"]), ("price", BindVal.l ["P1", "P2"]), ("q", BindVal.s "QQ")]
      "price" = some (.l (["P1", "P2"].filter fun n => hasCol c3DF n)) ∧
    dlookup (partitionParams [("x", BindVal.l ["x"]), ("price", BindVal.l ["P1", "P2"]),
      ("q", BindVal.s "QQ")] ["x", "price", "q"]).2 "price" = some ["P1", "P2"] := by
  have h := c3_binding_precedence c3Class c3DF
    [("x", BindVal.l ["x"]), ("price", BindVal.l ["P1", "P2"]), ("q", BindVal.s "QQ")]
    "price" (some (.l ["P1", "P2"])) (by rfl) (by decide)
  exact ⟨h.2.1 rfl ["P1", "P2"] rfl, h.2.2.2.2 ["P1", "P2"] ["x", "price", "q"]
    (by decide) (by decide) (by decide)⟩

/-- C2 (counterexample): in `exClass2` the two shared parameters resolve
to column groups of sizes two and three, yet the run does not fail: the
expansion is truncated to two concrete argument sets (`a1` with `b1`,
`a2` with `b2`; `b3` is silently dropped) and two wrappers are produced
without any alignment error. -/
theorem c2_counterexample :
    mapParamToColumns (step0 exClass2) exDF2 =
      .ok [("p", .l ["a1", "a2"]), ("q", .l ["b1", "b2", "b3"])] ∧
    runValidation exClass2 exDF2 = .ok
      [("a1_b1", ⟨[true], "a1_b1", "f", "doc."⟩),
        ("a2_b2", ⟨[true], "a2_b2", "f", "doc."⟩)] :=
  ⟨rfl, rfl⟩

/-- C2 (amended): in the `BaseValidation` pipeline, shared parameter
groups of differing sizes are not rejected: `convert_dict_to_records`
zips the groups positionally, so the expansion silently truncates to the
shortest group and the rule expands to `min` - many argument sets. -/
theorem c2_truncates_to_shortest (oneToOne : List (String × String)) (p1 p2 : String)
    (cs1 cs2 : List String) (h1 : 0 < cs1.length) (h2 : 0 < cs2.length) :
    (argSetsFromPartition oneToOne [(p1, cs1), (p2, cs2)]).length =
      min cs1.length cs2.length := by
  rw [argSetsFromPartition, convertDictToRecords_pair p1 p2 cs1 cs2 h1 h2]
  simp

/-- C2 (witness): instantiation of the truncation property on groups of
sizes two and three. -/
theorem c2_truncates_to_shortest_witness :
    (argSetsFromPartition [] [("p", ["a1", "a2"]), ("q", ["b1", "b2", "b3"])]).length =
      min (["a1", "a2"] : List String).length (["b1", "b2", "b3"] : List String).length :=
  c2_truncates_to_shortest [] "p" "q" ["a1", "a2"] ["b1", "b2", "b3"]
    (by decide) (by decide)

/-- C8 (counterexample): `BaseValidation.run_summary` and
`BaseValidation.run_error_log` hold no cached results at all - each call
performs the validation run itself - so both complete successfully when
no validation run has been executed before, instead of failing with a
not-run error. -/
theorem c8_counterexample :
    runSummary exClass exDF none = .ok
      [⟨none, "x", "first_function", "checks x positive.", 3, 2, 1⟩] ∧
    runErrorLog exClass exDF none = .ok
      [⟨[("x", -2), ("y", 5)], "first_function", none⟩] :=
  ⟨rfl, rfl⟩

/-- C8 (amended): the not-run gate exists only in the older `Validation`
iteration: its `generate` operations call `_confirm_run_was_ran`, which
raises a `RuntimeError` when `run()` has not executed, and only compute
their table when the flag is set. -/
theorem c8_not_run_gate (s : ValidationState) :
    (s.flagRunProcessed = false → generateErrorLog s =
      .error "RuntimeError: Expected Validation.run() method to be run once.") ∧
    (s.flagRunProcessed = true → generateErrorLog s =
      .ok (s.results.map fun kr => (kr.1, kr.2.length, kr.2.length - countTrue kr.2))) := by
  constructor <;> intro h <;> simp [generateErrorLog, confirmRunWasRan, h]

/-- C8 (witness): instantiation of the not-run gate on a concrete state
that has not run. -/
theorem c8_not_run_gate_witness :
    generateErrorLog ⟨[("c", [true, false])], false⟩ =
      .error "RuntimeError: Expected Validation.run() method to be run once." :=
  (c8_not_run_gate ⟨[("c", [true, false])], false⟩).1 rfl

/-- C10: run results are keyed only by the underscore-joined cleaned
column names of each argument combination, never by rule name: when two
distinct rules bind the same argument combination, the dict comprehension
and the `results | temp` merge keep only the later rule's wrapper under
the shared key, silently dropping the earlier rule's result. -/
theorem c10_later_rule_wins (df : DFrame) (f1 f2 : RuleFn) (n1 n2 docs1 docs2 : String)
    (argsPair : ArgSet) (args : List (String × List Int))
    (hne : n1 ≠ n2) (hargs : seriesArgs df argsPair = .ok args) :
    processFunctionWithArgs df [(n1, f1), (n2, f2)] [(n1, true), (n2, true)]
      [(n1, [argsPair]), (n2, [argsPair])] [(n1, docs1), (n2, docs2)] =
      .ok [(convertDictToRefNames argsPair false,
        ⟨f2.runSeries args, convertDictToRefNames argsPair false, n2, docs2⟩)] := by
  have hb1 : buildNewKeys df [argsPair] [] =
      .ok [(convertDictToRefNames argsPair false, args)] := by
    simp [buildNewKeys, hargs, dinsert]
  simp [processFunctionWithArgs, processFunctionWithArgsAux, lookupE, dlookup, hne,
    processOneFunction, processFunctionAsSeriesFunction, hb1, wrappersByParametersUsed,
    dmerge, dinsert, List.foldl]

/-- C10 (witness): two distinct rules `f1`, `f2` bound to the same column
`x` of `exDF`; the merged result keeps only `f2`'s wrapper. -/
theorem c10_later_rule_wins_witness :
    processFunctionWithArgs exDF [("f1", exRuleA), ("f2", exRuleB)] [("f1", true), ("f2", true)]
      [("f1", [[("p", "x")]]), ("f2", [[("p", "x")]])] [("f1", "docA."), ("f2", "docB.")] =
      .ok [(convertDictToRefNames [("p", "x")] false,
        ⟨exRuleB.runSeries [("p", [1, -2, 3])], convertDictToRefNames [("p", "x")] false,
          "f2", "docB."⟩)] :=
  c10_later_rule_wins exDF exRuleA exRuleB "f1" "f2" "docA." "docB." [("p", "x")]
    [("p", [1, -2, 3])] (by decide) (by rfl)

theorem getCol_ok_of_hasCol (df : DFrame) (c : String) (h : hasCol df c = true) :
    ∃ v, getCol df c = .ok v := by
  rw [hasCol, dmem] at h
  cases hl : dlookup df.cols c with
  | none => rw [hl] at h; simp at h
  | some v => exact ⟨v, by rw [getCol, hl]⟩

theorem getD_mem_of_lt (l : List String) (i : Nat) (d : String) (h : i < l.length) :
    l.getD i d ∈ l := by
  rw [List.getD_eq_getElem l d h]
  exact List.getElem_mem h

theorem seriesArgs_ok_of_hasCols (df : DFrame) (ap : ArgSet)
    (h : ∀ pc ∈ ap, hasCol df pc.2 = true) : ∃ a, seriesArgs df ap = .ok a := by
  rw [seriesArgs]
  have hx : ∀ pc ∈ ap, ∃ y, ((getCol df pc.2).map fun v => (pc.1, v)) = .ok y := by
    intro pc hpc
    obtain ⟨v, hv⟩ := getCol_ok_of_hasCol df pc.2 (h pc hpc)
    exact ⟨(pc.1, v), by rw [hv]; rfl⟩
  obtain ⟨ys, hys, -⟩ := exceptMap_ok_of_forall
    (fun pc => (getCol df pc.2).map fun v => (pc.1, v)) ap hx
  exact ⟨ys, hys⟩

/-- C4: a rule whose two shared parameters each bind to exactly `N`
columns is series-typed, expands to exactly `N` concrete argument sets
(the groups zipped positionally), and its dispatch produces exactly `N`
ResultWrappers, the rule invoked once per concrete set. -/
theorem c4_shared_expansion (df : DFrame) (f : RuleFn) (fname docs : String)
    (pm : List (String × BindVal)) (paramSet : List String)
    (p1 p2 : String) (cs1 cs2 : List String) (N : Nat)
    (hpart : partitionParams pm paramSet = ([], [(p1, cs1), (p2, cs2)]))
    (hl1 : cs1.length = N) (hl2 : cs2.length = N) (hN : 1 < N) (hne : p1 ≠ p2)
    (hser : ∀ p ∈ f.params, p.2 = true)
    (hcols1 : ∀ col ∈ cs1, hasCol df col = true)
    (hcols2 : ∀ col ∈ cs2, hasCol df col = true)
    (hnd : ((bindingArgSets pm paramSet).map fun ap => convertDictToRefNames ap false).Nodup) :
    functionTypeFor f.params = .ok true ∧
    (bindingArgSets pm paramSet).length = N ∧
    ∃ ws, processOneFunction df fname f true (bindingArgSets pm paramSet) docs = .ok ws ∧
      ws.length = N ∧
      List.Forall₂ (fun (ap : ArgSet) (w : ResultWrapper) =>
        ∃ args, seriesArgs df ap = .ok args ∧
          w = ⟨f.runSeries args, convertDictToRefNames ap false, fname, docs⟩)
        (bindingArgSets pm paramSet) ws := by
  have hdm : ∀ (x y : String), dmerge ([] : List (String × String)) [(p1, x), (p2, y)] =
      [(p1, x), (p2, y)] := by
    intro x y
    simp [dmerge, List.foldl, dinsert, hne]
  have hshape : bindingArgSets pm paramSet =
      (List.range N).map fun i => [(p1, cs1.getD i ""), (p2, cs2.getD i "")] := by
    simp only [bindingArgSets, hpart]
    rw [argSetsFromPartition, convertDictToRecords_pair p1 p2 cs1 cs2
      (by omega) (by omega)]
    rw [hl1, hl2, Nat.min_self, List.map_map]
    exact List.map_congr_left fun i _ => hdm _ _
  have hlenargs : (bindingArgSets pm paramSet).length = N := by
    rw [hshape]; simp
  have htype : functionTypeFor f.params = .ok true := by
    have hhs : f.params.any (fun p => !p.2) = false := by
      rw [List.any_eq_false]
      intro p hp
      rw [hser p hp]
      simp
    simp [functionTypeFor, hhs]
  refine ⟨htype, hlenargs, ?_⟩
  have hargsall : ∀ ap ∈ bindingArgSets pm paramSet, ∃ a, seriesArgs df ap = .ok a := by
    intro ap hap
    rw [hshape] at hap
    obtain ⟨i, hi, hap⟩ := List.mem_map.mp hap
    refine seriesArgs_ok_of_hasCols df ap ?_
    intro pc hpc
    rw [← hap] at hpc
    rcases List.mem_cons.mp hpc with h | h
    · rw [h]
      exact hcols1 _ (getD_mem_of_lt cs1 i "" (by rw [hl1]; exact List.mem_range.mp hi))
    · have h2 : pc = (p2, cs2.getD i "") := by simpa using h
      rw [h2]
      exact hcols2 _ (getD_mem_of_lt cs2 i "" (by rw [hl2]; exact List.mem_range.mp hi))
  obtain ⟨tail, htail, hf⟩ := buildNewKeys_ok df (bindingArgSets pm paramSet) [] hargsall
    (by simpa [dkeys] using hnd)
  refine ⟨tail.map fun kv => ⟨f.runSeries kv.2, kv.1, fname, docs⟩, ?_, ?_, ?_⟩
  · show processFunctionAsSeriesFunction f fname df (bindingArgSets pm paramSet) docs = _
    rw [processFunctionAsSeriesFunction, htail]
    simp
  · rw [List.length_map, ← hf.length_eq]
    exact hlenargs
  · rw [List.forall₂_map_right_iff]
    refine hf.imp ?_
    intro ap kv hk
    exact ⟨kv.2, hk.2, by rw [hk.1]⟩

/-- C4 (witness): instantiation with two shared groups of two columns
each over the concrete dataset `c4DF`. -/
theorem c4_shared_expansion_witness :
    functionTypeFor c4Rule.params = .ok true ∧
    (bindingArgSets c4PM ["gross", "exp"]).length = 2 ∧
    ∃ ws, processOneFunction c4DF "f" c4Rule true (bindingArgSets c4PM ["gross", "exp"])
        "d." = .ok ws ∧
      ws.length = 2 ∧
      List.Forall₂ (fun (ap : ArgSet) (w : ResultWrapper) =>
        ∃ args, seriesArgs c4DF ap = .ok args ∧
          w = ⟨c4Rule.runSeries args, convertDictToRefNames ap false, "f", "d."⟩)
        (bindingArgSets c4PM ["gross", "exp"]) ws :=
  c4_shared_expansion c4DF c4Rule "f" "d." c4PM ["gross", "exp"] "gross" "exp"
    ["tsm_g", "vt_g"] ["tsm_e", "vt_e"] 2 (by decide) (by decide) (by decide)
    (by decide) (by decide) (by decide) (by decide) (by decide) (by decide)

theorem buildRenameMapAux (o1 : ArgSet) :
    ∀ acc : List (String × String), (∀ c ∈ o1.map Prod.snd, c ∉ dkeys acc) →
    (o1.map Prod.snd).Nodup →
    o1.foldl (fun acc2 pc => dinsert acc2 pc.2 pc.1) acc =
      acc ++ o1.map fun pc => (pc.2, pc.1) := by
  induction o1 with
  | nil => intro acc _ _; simp
  | cons pc rest ih =>
    intro acc hdisj hnd
    have hmapc : (pc :: rest).map Prod.snd = pc.2 :: rest.map Prod.snd := rfl
    have hnd' : (rest.map Prod.snd).Nodup := by rw [hmapc] at hnd; exact hnd.of_cons
    have hfresh : pc.2 ∉ rest.map Prod.snd := by
      rw [hmapc] at hnd; exact (List.nodup_cons.mp hnd).1
    have hpc : pc.2 ∉ dkeys acc :=
      hdisj pc.2 (by rw [hmapc]; exact List.mem_cons_self _ _)
    have hdisj' : ∀ c ∈ rest.map Prod.snd, c ∉ dkeys (acc ++ [(pc.2, pc.1)]) := by
      intro k hk hmem
      rw [show dkeys (acc ++ [(pc.2, pc.1)]) = dkeys acc ++ [pc.2] by simp [dkeys]] at hmem
      rcases List.mem_append.mp hmem with h | h
      · exact hdisj k (by rw [hmapc]; exact List.mem_cons_of_mem _ hk) h
      · have : k = pc.2 := by simpa using h
        exact hfresh (this ▸ hk)
    rw [List.foldl_cons, dinsert_of_not_mem_keys _ _ _ hpc, ih _ hdisj' hnd']
    simp

theorem buildRenameMap_eq (o1 : ArgSet) (hnd : (o1.map Prod.snd).Nodup) :
    buildRenameMap o1 = o1.map fun pc => (pc.2, pc.1) := by
  rw [buildRenameMap, buildRenameMapAux o1 [] (by simp [dkeys]) hnd]
  simp

/-- C5: a rule whose parameters are all scalar-typed and all bound
statically is classified scalar, expands to exactly one argument set,
and its dispatch produces exactly one ResultWrapper whose boolean series
is one invocation per dataset row on a per-row record keyed by parameter
name, so its length equals the dataset's row count. -/
theorem c5_scalar_static (df : DFrame) (f : RuleFn) (fname docs : String)
    (pm : List (String × BindVal)) (paramSet : List String)
    (oneToOne : List (String × String))
    (_hwf : df.WF)
    (hpart : partitionParams pm paramSet = (oneToOne, []))
    (hsc : ∀ p ∈ f.params, p.2 = false) (hps : f.params ≠ [])
    (hcols : ∀ pc ∈ oneToOne, hasCol df pc.2 = true)
    (hinj : (oneToOne.map Prod.snd).Nodup) :
    functionTypeFor f.params = .ok false ∧
    bindingArgSets pm paramSet = [oneToOne] ∧
    ∃ w colData, processOneFunction df fname f false [oneToOne] docs = .ok [w] ∧
      scalarColData df oneToOne = .ok colData ∧
      colData.length = oneToOne.length ∧
      w.result = (scalarRecords df colData).map f.runScalar ∧
      w.result.length = df.nrows ∧
      w.parametersUsed = convertDictToRefNames oneToOne false ∧
      w.functionName = fname := by
  have htype : functionTypeFor f.params = .ok false := by
    have hhs : f.params.any (fun p => p.2) = false := by
      rw [List.any_eq_false]
      intro p hp
      rw [hsc p hp]
      simp
    have hsct : f.params.any (fun p => !p.2) = true := by
      cases hp : f.params with
      | nil => exact absurd hp hps
      | cons p0 ps =>
        have h0 : p0.2 = false := hsc p0 (by rw [hp]; exact List.mem_cons_self _ _)
        simp [List.any_cons, h0]
    simp [functionTypeFor, hhs, hsct]
  have hb : bindingArgSets pm paramSet = [oneToOne] := by
    simp only [bindingArgSets, hpart]
    rfl
  have hx : ∀ cp ∈ (oneToOne.map fun pc => (pc.2, pc.1)), ∃ y,
      ((getCol df cp.1).map fun v => (cp.2, v)) = .ok y := by
    intro cp hcp
    obtain ⟨pc, hpc, hswap⟩ := List.mem_map.mp hcp
    obtain ⟨v, hv⟩ := getCol_ok_of_hasCol df pc.2 (hcols pc hpc)
    refine ⟨(cp.2, v), ?_⟩
    rw [← hswap]
    rw [show ((pc.2, pc.1) : String × String).1 = pc.2 from rfl, hv]
    rfl
  obtain ⟨colData, hcd, hfcd⟩ := exceptMap_ok_of_forall
    (fun cp => (getCol df cp.1).map fun v => (cp.2, v))
    (oneToOne.map fun pc => (pc.2, pc.1)) hx
  have hscd : scalarColData df oneToOne = .ok colData := by
    rw [scalarColData, buildRenameMap_eq oneToOne hinj]
    exact hcd
  refine ⟨htype, hb,
    ⟨(scalarRecords df colData).map f.runScalar, convertDictToRefNames oneToOne false,
      fname, docs⟩, colData, ?_, hscd, ?_, rfl, ?_, rfl, rfl⟩
  · show processFunctionAsScalarFunction f fname df [oneToOne] docs = _
    rw [processFunctionAsScalarFunction]
    simp [exceptMap, processScalarSet, hscd]
  · rw [← hfcd.length_eq, List.length_map]
  · simp [scalarRecords]

/-- C5 (witness): instantiation on the scalar rule `first_function` bound
statically to column `x` of the three-row dataset `exDF`. -/
theorem c5_scalar_static_witness :
    functionTypeFor exRule.params = .ok false ∧
    bindingArgSets [("x", BindVal.l ["x"])] ["x"] = [[("x", "x")]] ∧
    ∃ w colData, processOneFunction exDF "first_function" exRule false [[("x", "x")]]
        "checks x positive." = .ok [w] ∧
      scalarColData exDF [("x", "x")] = .ok colData ∧
      colData.length = ([("x", "x")] : ArgSet).length ∧
      w.result = (scalarRecords exDF colData).map exRule.runScalar ∧
      w.result.length = exDF.nrows ∧
      w.parametersUsed = convertDictToRefNames [("x", "x")] false ∧
      w.functionName = "first_function" :=
  c5_scalar_static exDF exRule "first_function" "checks x positive."
    [("x", BindVal.l ["x"])] ["x"] [("x", "x")]
    (by show ∀ kv ∈ exDF.cols, kv.2.length = exDF.nrows; decide)
    (by decide) (by decide) (by decide) (by decide) (by decide)

/-- C6: on a non-empty result set, `run_summary` returns one row per
ResultWrapper carrying the check name, description and totals, sorted
descending by total failed, and each row's total failed plus the series'
true-count equals the series length (total failed = length - sum). -/
theorem c6_summary (c : VClass) (df : DFrame) (groupName : Option String)
    (res : List (String × ResultWrapper))
    (hok : runValidation c df = .ok res) (hne : res ≠ []) :
    ∃ rows, runSummary c df groupName = .ok rows ∧
      rows.Perm (res.map fun kr => mkSummaryRow groupName kr.1 kr.2) ∧
      rows.length = res.length ∧
      rows.Pairwise (fun a b => b.totalFailed ≤ a.totalFailed) ∧
      (∀ kr ∈ res, mkSummaryRow groupName kr.1 kr.2 ∈ rows) ∧
      (∀ row ∈ rows, ∃ kr ∈ res, row = mkSummaryRow groupName kr.1 kr.2 ∧
        row.totalFailed + countTrue kr.2.result = kr.2.result.length) := by
  have hemp : res.isEmpty = false := by
    cases res with
    | nil => exact absurd rfl hne
    | cons a l => rfl
  refine ⟨sortByFailedDesc (res.map fun kr => mkSummaryRow groupName kr.1 kr.2),
    ?_, ?_, ?_, ?_, ?_, ?_⟩
  · rw [runSummary, hok]
    simp only [except_bind_ok]
    rw [hemp]
    simp
  · exact perm_sortByFailedDesc _
  · rw [(perm_sortByFailedDesc _).length_eq, List.length_map]
  · exact sorted_sortByFailedDesc _
  · intro kr hkr
    exact (perm_sortByFailedDesc _).mem_iff.mpr (List.mem_map.mpr ⟨kr, hkr, rfl⟩)
  · intro row hrow
    obtain ⟨kr, hkr, heq⟩ := List.mem_map.mp ((perm_sortByFailedDesc _).mem_iff.mp hrow)
    refine ⟨kr, hkr, heq.symm, ?_⟩
    have hmk : (mkSummaryRow groupName kr.1 kr.2).totalFailed =
        kr.2.result.length - countTrue kr.2.result := rfl
    rw [← heq, hmk]
    have hle : countTrue kr.2.result ≤ kr.2.result.length := List.countP_le_length _
    omega

/-- C6 (witness): instantiation on the single-check class `exClass` over
the three-row dataset `exDF`. -/
theorem c6_summary_witness :
    ∃ rows, runSummary exClass exDF (some "G") = .ok rows ∧
      rows.Perm ([("x", (⟨[true, false, true], "x", "first_function",
        "checks x positive."⟩ : ResultWrapper))].map
          fun kr => mkSummaryRow (some "G") kr.1 kr.2) ∧
      rows.length = [("x", (⟨[true, false, true], "x", "first_function",
        "checks x positive."⟩ : ResultWrapper))].length ∧
      rows.Pairwise (fun a b => b.totalFailed ≤ a.totalFailed) ∧
      (∀ kr ∈ [("x", (⟨[true, false, true], "x", "first_function",
        "checks x positive."⟩ : ResultWrapper))],
        mkSummaryRow (some "G") kr.1 kr.2 ∈ rows) ∧
      (∀ row ∈ rows, ∃ kr ∈ [("x", (⟨[true, false, true], "x", "first_function",
        "checks x positive."⟩ : ResultWrapper))],
        row = mkSummaryRow (some "G") kr.1 kr.2 ∧
        row.totalFailed + countTrue kr.2.result = kr.2.result.length) :=
  c6_summary exClass exDF (some "G")
    [("x", ⟨[true, false, true], "x", "first_function", "checks x positive."⟩)]
    (by rfl) (by decide)

/-- C7 (counterexample): for the empty result set (a class declaring no
checks), `run_error_log` does not return the empty selection: `pd.concat`
on an empty list raises `ValueError`, so the operation fails instead of
returning a table. -/
theorem c7_counterexample :
    runValidation exClassEmpty exDF = .ok [] ∧
    runErrorLog exClassEmpty exDF none = .error "ValueError: No objects to concatenate" :=
  ⟨rfl, rfl⟩

/-- C7 (amended): on a non-empty result set whose series lengths match
the dataset's row count, `run_error_log` returns exactly the dataset rows
at the false positions of each wrapper's series - and no others - each
preserving the original columns and tagged with the rule name and the
optional group label, concatenated across all wrappers. -/
theorem c7_error_log (c : VClass) (df : DFrame) (groupName : Option String)
    (res : List (String × ResultWrapper))
    (hok : runValidation c df = .ok res) (hne : res ≠ [])
    (hlen : ∀ kr ∈ res, kr.2.result.length = df.nrows) :
    ∃ log, runErrorLog c df groupName = .ok log ∧
      log = (res.map fun kr => selectFailedRows df groupName kr.2).flatten ∧
      (∀ e, e ∈ log ↔ ∃ kr ∈ res, ∃ i, i < df.nrows ∧ kr.2.result.getD i true = false ∧
        e = ⟨rowCells df i, kr.2.functionName, groupName⟩) ∧
      (∀ e ∈ log, e.cells.map Prod.fst = df.cols.map Prod.fst ∧ e.group = groupName) := by
  have hemp : (res.map fun kr => selectFailedRows df groupName kr.2).isEmpty = false := by
    cases res with
    | nil => exact absurd rfl hne
    | cons a l => rfl
  refine ⟨(res.map fun kr => selectFailedRows df groupName kr.2).flatten, ?_, rfl, ?_, ?_⟩
  · rw [runErrorLog, hok]
    simp only [except_bind_ok]
    rw [hemp]
    simp
  · intro e
    rw [List.mem_flatten]
    constructor
    · rintro ⟨l, hl, hel⟩
      obtain ⟨kr, hkr, hlk⟩ := List.mem_map.mp hl
      rw [← hlk] at hel
      obtain ⟨i, hi, hf, he⟩ := (mem_selectFailedRows df groupName kr.2 e).mp hel
      exact ⟨kr, hkr, i, by rw [← hlen kr hkr]; exact hi, hf, he⟩
    · rintro ⟨kr, hkr, i, hi, hf, he⟩
      refine ⟨selectFailedRows df groupName kr.2, List.mem_map.mpr ⟨kr, hkr, rfl⟩, ?_⟩
      exact (mem_selectFailedRows df groupName kr.2 e).mpr
        ⟨i, by rw [hlen kr hkr]; exact hi, hf, he⟩
  · intro e he
    rw [List.mem_flatten] at he
    obtain ⟨l, hl, hel⟩ := he
    obtain ⟨kr, hkr, hlk⟩ := List.mem_map.mp hl
    rw [← hlk] at hel
    obtain ⟨i, hi, hf, he2⟩ := (mem_selectFailedRows df groupName kr.2 e).mp hel
    subst he2
    refine ⟨?_, rfl⟩
    show (rowCells df i).map Prod.fst = df.cols.map Prod.fst
    simp [rowCells, List.map_map, Function.comp]

/-- C7 (witness): instantiation on `exClass` over `exDF` with group label
`G`; the single failing row is row 1 (`x = -2`). -/
theorem c7_error_log_witness :
    ∃ log, runErrorLog exClass exDF (some "G") = .ok log ∧
      log = ([("x", (⟨[true, false, true], "x", "first_function",
        "checks x positive."⟩ : ResultWrapper))].map
          fun kr => selectFailedRows exDF (some "G") kr.2).flatten ∧
      (∀ e, e ∈ log ↔ ∃ kr ∈ [("x", (⟨[true, false, true], "x", "first_function",
        "checks x positive."⟩ : ResultWrapper))], ∃ i, i < exDF.nrows ∧
        kr.2.result.getD i true = false ∧
        e = ⟨rowCells exDF i, kr.2.functionName, some "G"⟩) ∧
      (∀ e ∈ log, e.cells.map Prod.fst = exDF.cols.map Prod.fst ∧ e.group = some "G") :=
  c7_error_log exClass exDF (some "G")
    [("x", ⟨[true, false, true], "x", "first_function", "checks x positive."⟩)]
    (by rfl) (by decide) (by decide)

end Dirlin
